import Mathlib

/-!
Verification of the cr0n-engine core: content-weight learning, the
category×provider weight table, routing, scoring, bucketing, and the
multi-provider consensus/merge protocol.

Numbers are modelled by `ℚ` (exact real semantics of the source's
arithmetic); the scorer, whose normalizers use `log10`, is modelled over
`ℝ` with `Real.logb`.  `Math.round` is modelled as `⌊x + 1/2⌋` (JS rounds
half toward +∞).  JS division is total on floats; `ℚ`/`ℝ` division in Lean
is total with `x / 0 = 0`, which agrees with the source wherever a claim
depends on it (the guarded divisions short-circuit before dividing).
-/

namespace Cr0n

/-- JS `Math.round`: round half toward positive infinity. -/
def jsRound {α : Type} [LinearOrderedField α] [FloorRing α] (x : α) : ℤ :=
  ⌊x + 1 / 2⌋

/-- `Math.round(x * 10000) / 10000` — round to 4 decimal places. -/
def round4 {α : Type} [LinearOrderedField α] [FloorRing α] (x : α) : α :=
  ((jsRound (x * 10000) : ℤ) : α) / 10000

/-- `Math.max(lo, Math.min(hi, v))` — the clamp idiom used throughout. -/
def clampTo {α : Type} [LinearOrder α] (v lo hi : α) : α :=
  max lo (min hi v)

theorem jsRound_le {α : Type} [LinearOrderedField α] [FloorRing α] (x : α) :
    ((jsRound x : ℤ) : α) ≤ x + 1 / 2 := by
  simpa [jsRound] using Int.floor_le (x + 1 / 2)

theorem lt_jsRound_add_one {α : Type} [LinearOrderedField α] [FloorRing α] (x : α) :
    x + 1 / 2 < ((jsRound x : ℤ) : α) + 1 := by
  simpa [jsRound] using Int.lt_floor_add_one (x + 1 / 2)

/-- The 4-decimal rounding moves a value by at most `1/20000`. -/
theorem abs_round4_sub_le {α : Type} [LinearOrderedField α] [FloorRing α] (x : α) :
    |round4 x - x| ≤ 1 / 20000 := by
  have h1 := jsRound_le (α := α) (x * 10000)
  have h2 := lt_jsRound_add_one (α := α) (x * 10000)
  rw [abs_le]
  constructor
  · rw [round4, div_sub' _ _ _ (by norm_num : (10000 : α) ≠ 0), le_div_iff (by norm_num : (0:α) < 10000)]
    nlinarith
  · rw [round4, div_sub' _ _ _ (by norm_num : (10000 : α) ≠ 0), div_le_iff (by norm_num : (0:α) < 10000)]
    nlinarith

/-- Compute `jsRound` at a concrete point from floor bounds. -/
theorem jsRound_eq {α : Type} [LinearOrderedField α] [FloorRing α] (x : α) (n : ℤ)
    (h1 : (n : α) ≤ x + 1 / 2) (h2 : x + 1 / 2 < (n : α) + 1) : jsRound x = n := by
  rw [jsRound]
  exact Int.floor_eq_iff.mpr ⟨h1, by exact_mod_cast h2⟩

/-- Compute `round4` at a concrete point from floor bounds. -/
theorem round4_eq {α : Type} [LinearOrderedField α] [FloorRing α] (x : α) (n : ℤ)
    (h1 : (n : α) ≤ x * 10000 + 1 / 2) (h2 : x * 10000 + 1 / 2 < (n : α) + 1) :
    round4 x = (n : α) / 10000 := by
  rw [round4, jsRound_eq (x * 10000) n h1 h2]

theorem clampTo_le {α : Type} [LinearOrder α] (v : α) {lo hi : α} (h : lo ≤ hi) :
    clampTo v lo hi ≤ hi :=
  max_le h (min_le_left _ _)

theorem le_clampTo {α : Type} [LinearOrder α] (v lo hi : α) :
    lo ≤ clampTo v lo hi :=
  le_max_left _ _

/-! ### Stable descending sort

JS `Array.prototype.sort` with a numeric comparator `(a, b) => key b - key a`
is, per the ECMAScript specification (ES2019+), a *stable* sort in
descending key order.  We characterize that behaviour extensionally
(`IsStableDescSortOf`), implement it by insertion sort (`insSortK`), and
prove the characterization pins the output down uniquely — this is what
makes the merge step deterministic regardless of the engine's sorting
algorithm. -/

/-- `s` is a stable descending sort of `l` by `key`: it is sorted by
non-increasing key, and within each key class the elements appear exactly
as they do in `l`. -/
def IsStableDescSortOf {α κ : Type} [LinearOrder κ] (key : α → κ) (l s : List α) : Prop :=
  s.Pairwise (fun a b => key b ≤ key a) ∧
    ∀ w : κ, s.filter (fun a => decide (key a = w)) = l.filter (fun a => decide (key a = w))

/-- Insert into a descending-sorted list, before the first element of
smaller-or-equal key (stable for equal keys). -/
def insDesc {α κ : Type} [LinearOrder κ] (key : α → κ) (c : α) : List α → List α
  | [] => [c]
  | d :: ds => if key d ≤ key c then c :: d :: ds else d :: insDesc key c ds

/-- Stable insertion sort, descending by `key`. -/
def insSortK {α κ : Type} [LinearOrder κ] (key : α → κ) : List α → List α
  | [] => []
  | c :: cs => insDesc key c (insSortK key cs)

theorem mem_insDesc {α κ : Type} [LinearOrder κ] (key : α → κ) (c x : α) (l : List α) :
    x ∈ insDesc key c l ↔ x = c ∨ x ∈ l := by
  induction l with
  | nil => simp [insDesc]
  | cons d ds ih =>
    by_cases hd : key d ≤ key c
    · rw [insDesc, if_pos hd]
      simp
    · rw [insDesc, if_neg hd, List.mem_cons, ih, List.mem_cons]
      tauto

theorem insDesc_pairwise {α κ : Type} [LinearOrder κ] (key : α → κ) (c : α) (l : List α)
    (h : l.Pairwise (fun a b => key b ≤ key a)) :
    (insDesc key c l).Pairwise (fun a b => key b ≤ key a) := by
  induction l with
  | nil => simp [insDesc]
  | cons d ds ih =>
    rw [List.pairwise_cons] at h
    by_cases hd : key d ≤ key c
    · rw [insDesc, if_pos hd, List.pairwise_cons]
      refine ⟨?_, List.pairwise_cons.mpr h⟩
      intro x hx
      rcases List.mem_cons.mp hx with rfl | hx
      · exact hd
      · exact le_trans (h.1 x hx) hd
    · rw [insDesc, if_neg hd, List.pairwise_cons]
      refine ⟨?_, ih h.2⟩
      intro x hx
      rcases (mem_insDesc key c x ds).mp hx with rfl | hx'
      · exact le_of_not_le hd
      · exact h.1 x hx'

theorem insDesc_filter {α κ : Type} [LinearOrder κ] (key : α → κ) (c : α) (l : List α) (w : κ) :
    (insDesc key c l).filter (fun a => decide (key a = w)) =
      (c :: l).filter (fun a => decide (key a = w)) := by
  induction l with
  | nil => simp [insDesc]
  | cons d ds ih =>
    by_cases hd : key d ≤ key c
    · rw [insDesc, if_pos hd]
    · rw [insDesc, if_neg hd]
      by_cases hdw : key d = w
      · -- `d`'s key equals `w`; then `key c ≠ w` since `key c < key d`.
        have hcw : ¬ key c = w := fun hc => hd (le_of_eq (hdw.trans hc.symm))
        simp [List.filter_cons, hdw, hcw, ih]
      · simp [List.filter_cons, hdw, ih]

theorem insSortK_spec {α κ : Type} [LinearOrder κ] (key : α → κ) (l : List α) :
    IsStableDescSortOf key l (insSortK key l) := by
  induction l with
  | nil => exact ⟨List.Pairwise.nil, fun w => rfl⟩
  | cons c cs ih =>
    refine ⟨insDesc_pairwise key c _ ih.1, fun w => ?_⟩
    rw [insSortK, insDesc_filter, List.filter_cons, List.filter_cons]
    by_cases hc : key c = w
    · simp [hc, ih.2 w]
    · simp [hc, ih.2 w]

/-- A stable descending sort of a list is unique: any two lists that are
sorted by non-increasing key and class-by-class equal are equal. -/
theorem stable_sort_unique {α κ : Type} [LinearOrder κ] (key : α → κ) :
    ∀ s₁ s₂ : List α,
      s₁.Pairwise (fun a b => key b ≤ key a) →
      s₂.Pairwise (fun a b => key b ≤ key a) →
      (∀ w : κ, s₁.filter (fun a => decide (key a = w)) =
        s₂.filter (fun a => decide (key a = w))) →
      s₁ = s₂ := by
  intro s₁
  induction s₁ with
  | nil =>
    intro s₂ _ _ hf
    cases s₂ with
    | nil => rfl
    | cons b t₂ =>
      have := hf (key b)
      simp [List.filter_cons] at this
  | cons a t₁ ih =>
    intro s₂ h₁ h₂ hf
    cases s₂ with
    | nil =>
      have := hf (key a)
      simp [List.filter_cons] at this
    | cons b t₂ =>
      rw [List.pairwise_cons] at h₁ h₂
      -- the heads carry equal keys
      have hab : key a = key b := by
        have ha2 : ∃ x ∈ b :: t₂, key x = key a := by
          have h := hf (key a)
          by_cases hb : key b = key a
          · exact ⟨b, List.mem_cons_self _ _, hb⟩
          · rw [List.filter_cons, List.filter_cons] at h
            simp only [decide_eq_true_eq, if_pos rfl, hb, if_neg, decide_eq_false hb,
              Bool.false_eq_true, if_false] at h
            have hmem : a ∈ List.filter (fun x => decide (key x = key a)) t₂ := by
              rw [← h]; exact List.mem_cons_self _ _
            have hm := List.mem_filter.mp hmem
            exact ⟨a, List.mem_cons_of_mem _ hm.1, of_decide_eq_true hm.2⟩
        have hb2 : ∃ x ∈ a :: t₁, key x = key b := by
          have h := hf (key b)
          by_cases hb : key a = key b
          · exact ⟨a, List.mem_cons_self _ _, hb⟩
          · rw [List.filter_cons, List.filter_cons] at h
            simp only [decide_eq_true_eq, if_pos rfl, hb, decide_eq_false hb,
              Bool.false_eq_true, if_false] at h
            have hmem : b ∈ List.filter (fun x => decide (key x = key b)) t₁ := by
              rw [h]; exact List.mem_cons_self _ _
            have hm := List.mem_filter.mp hmem
            exact ⟨b, List.mem_cons_of_mem _ hm.1, of_decide_eq_true hm.2⟩
        obtain ⟨x, hx, hxk⟩ := ha2
        obtain ⟨y, hy, hyk⟩ := hb2
        have hle1 : key a ≤ key b := by
          rcases List.mem_cons.mp hx with rfl | hx'
          · exact le_of_eq hxk.symm
          · exact hxk ▸ h₂.1 x hx'
        have hle2 : key b ≤ key a := by
          rcases List.mem_cons.mp hy with rfl | hy'
          · exact le_of_eq hyk.symm
          · exact hyk ▸ h₁.1 y hy'
        exact le_antisymm hle1 hle2
      -- the heads are the same element
      have hheads := hf (key a)
      rw [List.filter_cons, List.filter_cons] at hheads
      rw [if_pos (by simp), if_pos (by simp [hab.symm])] at hheads
      injection hheads with hae hftail
      subst hae
      have htail : t₁ = t₂ := by
        refine ih t₂ h₁.2 h₂.2 (fun w => ?_)
        have h := hf w
        by_cases hw : key a = w
        · rw [List.filter_cons, List.filter_cons] at h
          rw [if_pos (by simp [hw]), if_pos (by simp [hw])] at h
          injection h
        · rw [List.filter_cons, List.filter_cons] at h
          rwa [if_neg (by simp [hw]), if_neg (by simp [hw])] at h
      rw [htail]

/-- A sorting function usable where the source calls `Array.prototype.sort`
with a descending numeric comparator: any function meeting the ECMAScript
stable-sort contract for every key. -/
def SortFnSpec {α κ : Type} [LinearOrder κ] (s : (α → κ) → List α → List α) : Prop :=
  ∀ (key : α → κ) (l : List α), IsStableDescSortOf key l (s key l)

theorem sortFnSpec_insSortK {α κ : Type} [LinearOrder κ] :
    SortFnSpec (insSortK (α := α) (κ := κ)) :=
  fun key l => insSortK_spec key l

/-- Two implementations of the stable-sort contract agree everywhere. -/
theorem sortFn_eq_of_spec {α κ : Type} [LinearOrder κ] {s₁ s₂ : (α → κ) → List α → List α}
    (h₁ : SortFnSpec s₁) (h₂ : SortFnSpec s₂) (key : α → κ) (l : List α) :
    s₁ key l = s₂ key l := by
  obtain ⟨hp₁, hf₁⟩ := h₁ key l
  obtain ⟨hp₂, hf₂⟩ := h₂ key l
  exact stable_sort_unique key _ _ hp₁ hp₂ (fun w => (hf₁ w).trans (hf₂ w).symm)

/-- First-seen-order deduplication, the behaviour of iterating a JS `Set`
built from an array. -/
def dedupKeep {α : Type} [DecidableEq α] (l : List α) : List α :=
  l.foldl (fun acc s => if s ∈ acc then acc else acc ++ [s]) []

theorem mem_dedupKeep_foldl {α : Type} [DecidableEq α] (l : List α) :
    ∀ (acc : List α) (x : α),
      (x ∈ l.foldl (fun acc s => if s ∈ acc then acc else acc ++ [s]) acc) ↔
        (x ∈ acc ∨ x ∈ l) := by
  induction l with
  | nil => simp
  | cons c cs ih =>
    intro acc x
    rw [List.foldl_cons, ih]
    by_cases hc : c ∈ acc
    · rw [if_pos hc]
      constructor
      · rintro (h | h)
        · exact Or.inl h
        · exact Or.inr (List.mem_cons_of_mem _ h)
      · rintro (h | h)
        · exact Or.inl h
        · rcases List.mem_cons.mp h with rfl | h'
          · exact Or.inl hc
          · exact Or.inr h'
    · rw [if_neg hc]
      constructor
      · rintro (h | h)
        · rcases List.mem_append.mp h with h' | h'
          · exact Or.inl h'
          · exact Or.inr (List.mem_cons.mpr (Or.inl (by simpa using h')))
        · exact Or.inr (List.mem_cons_of_mem _ h)
      · rintro (h | h)
        · exact Or.inl (List.mem_append.mpr (Or.inl h))
        · rcases List.mem_cons.mp h with rfl | h'
          · exact Or.inl (List.mem_append.mpr (Or.inr (by simp)))
          · exact Or.inr h'

theorem mem_dedupKeep {α : Type} [DecidableEq α] (l : List α) (x : α) :
    x ∈ dedupKeep l ↔ x ∈ l := by
  rw [dedupKeep, mem_dedupKeep_foldl]
  simp

theorem nodup_dedupKeep_foldl {α : Type} [DecidableEq α] (l : List α) :
    ∀ acc : List α, acc.Nodup →
      (l.foldl (fun acc s => if s ∈ acc then acc else acc ++ [s]) acc).Nodup := by
  induction l with
  | nil => intro acc h; simpa using h
  | cons c cs ih =>
    intro acc h
    rw [List.foldl_cons]
    by_cases hc : c ∈ acc
    · rw [if_pos hc]; exact ih acc h
    · rw [if_neg hc]
      exact ih _ (by simp [List.nodup_append, h, hc])

theorem nodup_dedupKeep {α : Type} [DecidableEq α] (l : List α) :
    (dedupKeep l).Nodup :=
  nodup_dedupKeep_foldl l [] List.nodup_nil

theorem dedupKeep_append_singleton {α : Type} [DecidableEq α] (p : List α) (r : α) :
    dedupKeep (p ++ [r]) =
      if r ∈ p then dedupKeep p else dedupKeep p ++ [r] := by
  rw [dedupKeep, List.foldl_append, List.foldl_cons, List.foldl_nil]
  show (if r ∈ dedupKeep p then dedupKeep p else dedupKeep p ++ [r]) = _
  by_cases hr : r ∈ p
  · rw [if_pos ((mem_dedupKeep p r).mpr hr), if_pos hr]
  · rw [if_neg (fun h => hr ((mem_dedupKeep p r).mp h)), if_neg hr]

/-! ### Core data model (`src/core/types.ts`, `src/core/constants.ts`) -/

/-- The closed 5-value action-category enumeration. -/
inductive ActionBucket
  | CTR_FIX
  | STRIKING_DISTANCE
  | RELEVANCE_REBUILD
  | LOCAL_BOOST
  | MONITOR
deriving DecidableEq, Fintype

/-- The five content-weight dimensions (`keyof WeightConfig`). -/
inductive WeightKey
  | impressions
  | position
  | ctrGap
  | conversions
  | freshness
deriving DecidableEq, Fintype

/-- `WeightConfig` — the 5-component content weight vector. -/
structure WeightConfig (α : Type) where
  impressions : α
  position : α
  ctrGap : α
  conversions : α
  freshness : α
deriving DecidableEq

def wGet {α : Type} (w : WeightConfig α) : WeightKey → α
  | .impressions => w.impressions
  | .position => w.position
  | .ctrGap => w.ctrGap
  | .conversions => w.conversions
  | .freshness => w.freshness

def wSet {α : Type} (w : WeightConfig α) : WeightKey → α → WeightConfig α
  | .impressions, v => { w with impressions := v }
  | .position, v => { w with position := v }
  | .ctrGap, v => { w with ctrGap := v }
  | .conversions, v => { w with conversions := v }
  | .freshness, v => { w with freshness := v }

/-- `Object.values(weights).reduce((sum, val) => sum + val, 0)` — field
declaration order gives JS key insertion order. -/
def wSum {α : Type} [AddCommMonoid α] (w : WeightConfig α) : α :=
  w.impressions + w.position + w.ctrGap + w.conversions + w.freshness

def DEFAULT_WEIGHTS : WeightConfig ℚ :=
  ⟨20/100, 20/100, 20/100, 20/100, 20/100⟩

structure LearningConfig where
  learningRate : ℚ
  minWeight : ℚ
  maxWeight : ℚ
deriving DecidableEq

def DEFAULT_LEARNING_CONFIG : LearningConfig :=
  ⟨15/1000, 5/100, 50/100⟩

/-- The metric a bucket's success criterion compares (`SUCCESS_CRITERIA[].metric`). -/
inductive SuccessMetric
  | ctr
  | position
  | impressions
  | clicks
deriving DecidableEq

structure SuccessCriteria where
  metric : SuccessMetric
  improvement : ℚ
  description : String
deriving DecidableEq

/-- `SUCCESS_CRITERIA` from `src/core/constants.ts`.  In the source this is
a total `Record<ActionBucket, …>`, so the `!criteria` guard of
`evaluateActionSuccess` is dead code. -/
def SUCCESS_CRITERIA : ActionBucket → SuccessCriteria
  | .CTR_FIX => ⟨.ctr, 20/100, "CTR improved by 20% or more"⟩
  | .STRIKING_DISTANCE => ⟨.position, 2, "Position improved by 2+ spots"⟩
  | .RELEVANCE_REBUILD => ⟨.impressions, 50/100, "Impressions grew by 50% or more"⟩
  | .LOCAL_BOOST => ⟨.clicks, 30/100, "Clicks improved by 30% or more"⟩
  | .MONITOR => ⟨.position, 0, "Position maintained or improved"⟩

/-- The fields of `SEOAction` read by the learning cycle.  Fields the
adjuster never touches (ids, brief, timestamps, …) are omitted. -/
structure SEOAction where
  url : String
  actionType : ActionBucket
  originalClicks : ℚ
  originalImpressions : ℚ
  originalCtr : ℚ
  originalPosition : ℚ
  resultClicks : Option ℚ
  resultImpressions : Option ℚ
  resultCtr : Option ℚ
  resultPosition : Option ℚ
  learningApplied : Bool
deriving DecidableEq

structure WeightAdjustment where
  weight : WeightKey
  oldValue : ℚ
  newValue : ℚ
  reason : String
deriving DecidableEq

structure ActionEvaluation where
  success : Bool
  score : ℚ
  criteria : String
deriving DecidableEq

/-! ### Content weight adjuster (`src/learning/weight-adjuster.ts`)

The TS class holds `weights`, `config` and `learningCycles` as mutable
fields; we thread them as an explicit state.  The action records are only
ever *read* by the cycle; to make that frame property a theorem rather
than a convention, the loop also returns the action records as they stand
after each iteration. -/

structure AdjusterState where
  weights : WeightConfig ℚ
  config : LearningConfig
  learningCycles : ℕ
deriving DecidableEq

structure LearningResult where
  newWeights : WeightConfig ℚ
  adjustments : List WeightAdjustment
  totalLearningCycles : ℕ
deriving DecidableEq

/-- `url.split('/').pop()` — the last `/`-separated segment. -/
def lastUrlSegment (url : String) : String :=
  (url.splitOn ("/")).getLastD url

/-- `evaluateActionSuccess`.  NOTE: for `MONITOR` the source divides by an
`improvement` of `0`; in JS that yields `±Infinity`/`NaN` inside the
(otherwise unused) `score`, here `ℚ` division by zero yields `0`.  Every
claim depends only on the `success` flag, which performs no division. -/
def evaluateActionSuccess (action : SEOAction) : ActionEvaluation :=
  let criteria := SUCCESS_CRITERIA action.actionType
  let delta : ℚ :=
    match criteria.metric with
    | .ctr =>
      let baseValue := action.originalCtr
      let resultValue := action.resultCtr.getD baseValue
      if baseValue > 0 then (resultValue - baseValue) / baseValue else 0
    | .position =>
      let baseValue := action.originalPosition
      let resultValue := action.resultPosition.getD baseValue
      baseValue - resultValue
    | .impressions =>
      let baseValue := action.originalImpressions
      let resultValue := action.resultImpressions.getD baseValue
      if baseValue > 0 then (resultValue - baseValue) / baseValue else 0
    | .clicks =>
      let baseValue := action.originalClicks
      let resultValue := action.resultClicks.getD baseValue
      if baseValue > 0 then (resultValue - baseValue) / baseValue else 0
  let successScore := min (max (delta / criteria.improvement) 0) 1
  { success := decide (delta ≥ criteria.improvement),
    score := successScore,
    criteria := criteria.description }

def getWeightKeyForBucket : ActionBucket → WeightKey
  | .CTR_FIX => .ctrGap
  | .STRIKING_DISTANCE => .position
  | .RELEVANCE_REBUILD => .impressions
  | .LOCAL_BOOST => .conversions
  | .MONITOR => .freshness

/-- `applyAdjustment` — clamp the stepped weight, drop sub-1e-4 moves. -/
def applyAdjustment (config : LearningConfig) (weights : WeightConfig ℚ)
    (weightKey : WeightKey) (delta : ℚ) (reason : String) :
    WeightConfig ℚ × Option WeightAdjustment :=
  let oldValue := wGet weights weightKey
  let adjustment := delta * config.learningRate
  let newValue := max config.minWeight (min config.maxWeight (oldValue + adjustment))
  if |newValue - oldValue| < 1/10000 then
    (weights, none)
  else
    (wSet weights weightKey newValue,
      some { weight := weightKey, oldValue := round4 oldValue,
             newValue := round4 newValue, reason })

/-- `normalizeWeights` — divide by the total and round each component to 4
decimals.  There is no re-clamp after this division. -/
def normalizeWeights (w : WeightConfig ℚ) : WeightConfig ℚ :=
  let total := wSum w
  if total = 0 then w
  else
    ⟨round4 (w.impressions / total), round4 (w.position / total),
     round4 (w.ctrGap / total), round4 (w.conversions / total),
     round4 (w.freshness / total)⟩

instance : ToString ActionBucket :=
  ⟨fun b => match b with
    | .CTR_FIX => "CTR_FIX"
    | .STRIKING_DISTANCE => "STRIKING_DISTANCE"
    | .RELEVANCE_REBUILD => "RELEVANCE_REBUILD"
    | .LOCAL_BOOST => "LOCAL_BOOST"
    | .MONITOR => "MONITOR"⟩

/-- One iteration of the `for (const action of completedActions)` loop.
The third component carries the action record as it stands after the
iteration: the body reads the record but contains no assignment to it. -/
def processAction (config : LearningConfig)
    (st : WeightConfig ℚ × List WeightAdjustment × List SEOAction)
    (action : SEOAction) :
    WeightConfig ℚ × List WeightAdjustment × List SEOAction :=
  let (weights, adjustments, seen) := st
  if action.learningApplied then (weights, adjustments, seen ++ [action])
  else
    let evaluation := evaluateActionSuccess action
    let weightKey := getWeightKeyForBucket action.actionType
    let delta : ℚ := if evaluation.success then 1 else -(1/2)
    let reason :=
      if evaluation.success then
        (toString action.actionType ++ " success on " ++ lastUrlSegment action.url)
      else
        (toString action.actionType ++ " did not meet criteria on " ++ lastUrlSegment action.url)
    let res := applyAdjustment config weights weightKey delta reason
    match res.2 with
    | some a => (res.1, adjustments ++ [a], seen ++ [action])
    | none => (res.1, adjustments, seen ++ [action])

/-- `WeightAdjuster.runLearningCycle`.  Returns the `LearningResult`, the
adjuster state after the call, and the action records after the call. -/
def runLearningCycle (st : AdjusterState) (completedActions : List SEOAction) :
    LearningResult × AdjusterState × List SEOAction :=
  let folded := completedActions.foldl (processAction st.config) (st.weights, [], [])
  let newWeights := normalizeWeights folded.1
  ({ newWeights := newWeights, adjustments := folded.2.1,
     totalLearningCycles := st.learningCycles + 1 },
   { weights := newWeights, config := st.config,
     learningCycles := st.learningCycles + 1 },
   folded.2.2)

/-! ### Lemmas for claims C1, C8, C10 -/

theorem runLearningCycle_adjustments (st : AdjusterState) (acts : List SEOAction) :
    (runLearningCycle st acts).1.adjustments =
      (acts.foldl (processAction st.config) (st.weights, [], [])).2.1 := rfl

theorem runLearningCycle_newWeights (st : AdjusterState) (acts : List SEOAction) :
    (runLearningCycle st acts).1.newWeights =
      normalizeWeights ((acts.foldl (processAction st.config) (st.weights, [], [])).1) := rfl

theorem runLearningCycle_state (st : AdjusterState) (acts : List SEOAction) :
    (runLearningCycle st acts).2.1 =
      ⟨normalizeWeights ((acts.foldl (processAction st.config) (st.weights, [], [])).1),
        st.config, st.learningCycles + 1⟩ := rfl

theorem runLearningCycle_seen (st : AdjusterState) (acts : List SEOAction) :
    (runLearningCycle st acts).2.2 =
      (acts.foldl (processAction st.config) (st.weights, [], [])).2.2 := rfl

theorem wGet_wSet {α : Type} (w : WeightConfig α) (key k : WeightKey) (v : α) :
    wGet (wSet w key v) k = if k = key then v else wGet w k := by
  cases key <;> cases k <;> simp [wGet, wSet]

theorem applyAdjustment_fst_min (config : LearningConfig) (w : WeightConfig ℚ)
    (key : WeightKey) (delta : ℚ) (reason : String)
    (h : ∀ k, config.minWeight ≤ wGet w k) :
    ∀ k, config.minWeight ≤ wGet (applyAdjustment config w key delta reason).1 k := by
  intro k
  rw [applyAdjustment]
  split
  · exact h k
  · rw [wGet_wSet]
    split
    · exact le_max_left _ _
    · exact h k

theorem processAction_fst_min (config : LearningConfig)
    (st : WeightConfig ℚ × List WeightAdjustment × List SEOAction) (a : SEOAction)
    (h : ∀ k, config.minWeight ≤ wGet st.1 k) :
    ∀ k, config.minWeight ≤ wGet (processAction config st a).1 k := by
  intro k
  rw [processAction]
  split
  · exact h k
  · dsimp only
    split
    · exact applyAdjustment_fst_min config st.1 _ _ _ h k
    · exact applyAdjustment_fst_min config st.1 _ _ _ h k

theorem foldl_processAction_min (config : LearningConfig) (acts : List SEOAction) :
    ∀ (w : WeightConfig ℚ) (adjs : List WeightAdjustment) (seen : List SEOAction),
      (∀ k, config.minWeight ≤ wGet w k) →
      ∀ k, config.minWeight ≤ wGet ((acts.foldl (processAction config) (w, adjs, seen)).1) k := by
  induction acts with
  | nil => intro w adjs seen h k; exact h k
  | cons a rest ih =>
    intro w adjs seen h k
    rw [List.foldl_cons]
    exact ih _ _ _ (processAction_fst_min config (w, adjs, seen) a h) k

/-- `normalizeWeights` on an explicit record with nonzero total. -/
theorem normalizeWeights_mk (a b c d e : ℚ) (h : a + b + c + d + e ≠ 0) :
    normalizeWeights ⟨a, b, c, d, e⟩ =
      ⟨round4 (a / (a + b + c + d + e)), round4 (b / (a + b + c + d + e)),
       round4 (c / (a + b + c + d + e)), round4 (d / (a + b + c + d + e)),
       round4 (e / (a + b + c + d + e))⟩ := by
  rw [normalizeWeights]
  exact if_neg h

/-- Concrete evaluation: renormalizing `(0.5, 0.5, 0.5, 0.5, 0.05)` drives
the last component to `0.0244`, below the default `minWeight` of `0.05`. -/
theorem normalizeWeights_halves :
    normalizeWeights ⟨1/2, 1/2, 1/2, 1/2, 1/20⟩ =
      ⟨2439/10000, 2439/10000, 2439/10000, 2439/10000, 61/2500⟩ := by
  rw [normalizeWeights_mk _ _ _ _ _ (by norm_num)]
  rw [round4_eq ((1/2 : ℚ) / (1/2 + 1/2 + 1/2 + 1/2 + 1/20)) 2439 (by norm_num) (by norm_num)]
  rw [round4_eq ((1/20 : ℚ) / (1/2 + 1/2 + 1/2 + 1/2 + 1/20)) 244 (by norm_num) (by norm_num)]
  norm_num [WeightConfig.mk.injEq]

/-- Concrete evaluation: renormalizing `(0.20005 ×4, 0.1998)` (total exactly
`1`) rounds the first four components up, leaving sum `1.0002`. -/
theorem normalizeWeights_nearFifths :
    normalizeWeights ⟨4001/20000, 4001/20000, 4001/20000, 4001/20000, 999/5000⟩ =
      ⟨2001/10000, 2001/10000, 2001/10000, 2001/10000, 999/5000⟩ := by
  rw [normalizeWeights_mk _ _ _ _ _ (by norm_num)]
  rw [round4_eq ((4001/20000 : ℚ) /
    (4001/20000 + 4001/20000 + 4001/20000 + 4001/20000 + 999/5000)) 2001
    (by norm_num) (by norm_num)]
  rw [round4_eq ((999/5000 : ℚ) /
    (4001/20000 + 4001/20000 + 4001/20000 + 4001/20000 + 999/5000)) 1998
    (by norm_num) (by norm_num)]
  norm_num [WeightConfig.mk.injEq]

/-- Renormalization leaves the vector's sum within `±2.5e-4` of `1`:
five components, each rounded to `1e-4` with error at most half an ulp. -/
theorem wSum_normalizeWeights (w : WeightConfig ℚ) (h : wSum w ≠ 0) :
    |wSum (normalizeWeights w) - 1| ≤ 1/4000 := by
  have e1 := abs_round4_sub_le (α := ℚ) (w.impressions / wSum w)
  have e2 := abs_round4_sub_le (α := ℚ) (w.position / wSum w)
  have e3 := abs_round4_sub_le (α := ℚ) (w.ctrGap / wSum w)
  have e4 := abs_round4_sub_le (α := ℚ) (w.conversions / wSum w)
  have e5 := abs_round4_sub_le (α := ℚ) (w.freshness / wSum w)
  have hsum : w.impressions / wSum w + w.position / wSum w + w.ctrGap / wSum w +
      w.conversions / wSum w + w.freshness / wSum w = 1 := by
    rw [div_add_div_same, div_add_div_same, div_add_div_same, div_add_div_same]
    exact div_self h
  rw [normalizeWeights]
  rw [if_neg h]
  have hns : wSum (WeightConfig.mk (round4 (w.impressions / wSum w))
      (round4 (w.position / wSum w)) (round4 (w.ctrGap / wSum w))
      (round4 (w.conversions / wSum w)) (round4 (w.freshness / wSum w))) =
      round4 (w.impressions / wSum w) + round4 (w.position / wSum w) +
      round4 (w.ctrGap / wSum w) + round4 (w.conversions / wSum w) +
      round4 (w.freshness / wSum w) := rfl
  rw [hns]
  rw [abs_le] at e1 e2 e3 e4 e5 ⊢
  constructor <;> linarith

/-- Claim C1 (amended): after `runLearningCycle`, the weight vector sums to
`1` within `±2.5e-4` (provided the configured `minWeight` is positive and
the starting components lie in `[minWeight, maxWeight]`); the components
themselves may leave `[minWeight, maxWeight]`, because `normalizeWeights`
does not re-clamp after dividing by the total. -/
theorem C1_cycle_sum_within_tolerance (st : AdjusterState) (acts : List SEOAction)
    (hmin : 0 < st.config.minWeight)
    (hw : ∀ k, st.config.minWeight ≤ wGet st.weights k ∧
      wGet st.weights k ≤ st.config.maxWeight) :
    |wSum (runLearningCycle st acts).1.newWeights - 1| ≤ 1/4000 := by
  have hfold := foldl_processAction_min st.config acts st.weights [] []
    (fun k => (hw k).1)
  have h1 := hfold .impressions
  have h2 := hfold .position
  have h3 := hfold .ctrGap
  have h4 := hfold .conversions
  have h5 := hfold .freshness
  simp only [wGet] at h1 h2 h3 h4 h5
  have hpos : 0 < wSum ((acts.foldl (processAction st.config) (st.weights, [], [])).1) := by
    rw [wSum]; linarith
  exact wSum_normalizeWeights _ (ne_of_gt hpos)

/-- Witness for C1: the default configuration and an empty action list
satisfy the hypotheses, and the conclusion holds there. -/
theorem C1_cycle_sum_within_tolerance_witness :
    (0 < DEFAULT_LEARNING_CONFIG.minWeight ∧
      (∀ k, DEFAULT_LEARNING_CONFIG.minWeight ≤ wGet DEFAULT_WEIGHTS k ∧
        wGet DEFAULT_WEIGHTS k ≤ DEFAULT_LEARNING_CONFIG.maxWeight)) ∧
    |wSum (runLearningCycle ⟨DEFAULT_WEIGHTS, DEFAULT_LEARNING_CONFIG, 0⟩ []).1.newWeights - 1|
      ≤ 1/4000 :=
  ⟨⟨by norm_num [DEFAULT_LEARNING_CONFIG],
    by intro k; cases k <;>
      exact ⟨by norm_num [DEFAULT_LEARNING_CONFIG, DEFAULT_WEIGHTS, wGet],
             by norm_num [DEFAULT_LEARNING_CONFIG, DEFAULT_WEIGHTS, wGet]⟩⟩,
    C1_cycle_sum_within_tolerance ⟨DEFAULT_WEIGHTS, DEFAULT_LEARNING_CONFIG, 0⟩ []
      (by norm_num [DEFAULT_LEARNING_CONFIG])
      (by intro k; cases k <;>
        exact ⟨by norm_num [DEFAULT_LEARNING_CONFIG, DEFAULT_WEIGHTS, wGet],
               by norm_num [DEFAULT_LEARNING_CONFIG, DEFAULT_WEIGHTS, wGet]⟩)⟩

/-- Claim C1 counterexample: two starting vectors whose components all lie
in the default `[0.05, 0.50]`, after a cycle over an empty action list:
the first ends with its `freshness` component at `0.0244 < 0.05`, the
second ends with sum `1.0002`, outside the claimed `±1e-4`. -/
theorem C1_counterexample :
    (∀ k, DEFAULT_LEARNING_CONFIG.minWeight ≤
        wGet (⟨1/2, 1/2, 1/2, 1/2, 1/20⟩ : WeightConfig ℚ) k ∧
      wGet (⟨1/2, 1/2, 1/2, 1/2, 1/20⟩ : WeightConfig ℚ) k ≤
        DEFAULT_LEARNING_CONFIG.maxWeight) ∧
    wGet (runLearningCycle ⟨⟨1/2, 1/2, 1/2, 1/2, 1/20⟩, DEFAULT_LEARNING_CONFIG, 0⟩ []).1.newWeights
        .freshness < DEFAULT_LEARNING_CONFIG.minWeight ∧
    (∀ k, DEFAULT_LEARNING_CONFIG.minWeight ≤
        wGet (⟨4001/20000, 4001/20000, 4001/20000, 4001/20000, 999/5000⟩ : WeightConfig ℚ) k ∧
      wGet (⟨4001/20000, 4001/20000, 4001/20000, 4001/20000, 999/5000⟩ : WeightConfig ℚ) k ≤
        DEFAULT_LEARNING_CONFIG.maxWeight) ∧
    ¬ (|wSum (runLearningCycle
        ⟨⟨4001/20000, 4001/20000, 4001/20000, 4001/20000, 999/5000⟩,
          DEFAULT_LEARNING_CONFIG, 0⟩ []).1.newWeights - 1| ≤ 1/10000) := by
  have hrun1 : (runLearningCycle ⟨⟨1/2, 1/2, 1/2, 1/2, 1/20⟩,
      DEFAULT_LEARNING_CONFIG, 0⟩ []).1.newWeights =
      normalizeWeights ⟨1/2, 1/2, 1/2, 1/2, 1/20⟩ := rfl
  have hrun2 : (runLearningCycle
      ⟨⟨4001/20000, 4001/20000, 4001/20000, 4001/20000, 999/5000⟩,
        DEFAULT_LEARNING_CONFIG, 0⟩ []).1.newWeights =
      normalizeWeights ⟨4001/20000, 4001/20000, 4001/20000, 4001/20000, 999/5000⟩ := rfl
  refine ⟨?_, ?_, ?_, ?_⟩
  · intro k; cases k <;>
      exact ⟨by norm_num [DEFAULT_LEARNING_CONFIG, wGet],
             by norm_num [DEFAULT_LEARNING_CONFIG, wGet]⟩
  · rw [hrun1, normalizeWeights_halves]
    norm_num [DEFAULT_LEARNING_CONFIG, wGet]
  · intro k; cases k <;>
      exact ⟨by norm_num [DEFAULT_LEARNING_CONFIG, wGet],
             by norm_num [DEFAULT_LEARNING_CONFIG, wGet]⟩
  · rw [hrun2, normalizeWeights_nearFifths]
    have hs : wSum (⟨2001/10000, 2001/10000, 2001/10000, 2001/10000, 999/5000⟩ :
        WeightConfig ℚ) - 1 = 1/5000 := by
      norm_num [wSum]
    rw [hs, abs_of_pos (by norm_num)]
    norm_num

theorem foldl_processAction_applied (config : LearningConfig) (acts : List SEOAction)
    (h : ∀ a ∈ acts, a.learningApplied = true) :
    ∀ (w : WeightConfig ℚ) (adjs : List WeightAdjustment) (seen : List SEOAction),
      acts.foldl (processAction config) (w, adjs, seen) = (w, adjs, seen ++ acts) := by
  induction acts with
  | nil => intro w adjs seen; simp
  | cons a rest ih =>
    intro w adjs seen
    rw [List.foldl_cons, processAction]
    rw [if_pos (h a (List.mem_cons_self a rest))]
    rw [ih (fun x hx => h x (List.mem_cons_of_mem a hx)) w adjs (seen ++ [a])]
    simp

/-- Claim C8 (amended): on a list of actions that are all flagged
`learningApplied`, the cycle performs no per-action adjustment
(`adjustments = []`), but the trailing `normalizeWeights()` still runs, so
the returned vector is the rounded renormalization of the held vector —
not necessarily the held vector itself. -/
theorem C8_applied_actions_cycle (st : AdjusterState) (acts : List SEOAction)
    (h : ∀ a ∈ acts, a.learningApplied = true) :
    (runLearningCycle st acts).1.adjustments = [] ∧
    (runLearningCycle st acts).1.newWeights = normalizeWeights st.weights := by
  constructor
  · rw [runLearningCycle_adjustments, foldl_processAction_applied st.config acts h st.weights [] []]
  · rw [runLearningCycle_newWeights, foldl_processAction_applied st.config acts h st.weights [] []]

/-- Witness for C8: a concrete flagged action under the default state. -/
theorem C8_applied_actions_cycle_witness :
    (∀ a ∈ [SEOAction.mk ("https://example.com/a") .CTR_FIX 0 0 0 0 none none none none true],
      a.learningApplied = true) ∧
    (runLearningCycle ⟨DEFAULT_WEIGHTS, DEFAULT_LEARNING_CONFIG, 0⟩
        [SEOAction.mk ("https://example.com/a") .CTR_FIX 0 0 0 0 none none none none true]).1.adjustments = [] ∧
    (runLearningCycle ⟨DEFAULT_WEIGHTS, DEFAULT_LEARNING_CONFIG, 0⟩
        [SEOAction.mk ("https://example.com/a") .CTR_FIX 0 0 0 0 none none none none true]).1.newWeights =
      normalizeWeights DEFAULT_WEIGHTS :=
  ⟨by decide,
    C8_applied_actions_cycle ⟨DEFAULT_WEIGHTS, DEFAULT_LEARNING_CONFIG, 0⟩
      [SEOAction.mk ("https://example.com/a") .CTR_FIX 0 0 0 0 none none none none true]
      (by decide)⟩

/-- Claim C8 counterexample: with every action flagged, the adjustments
list is indeed empty, but the returned `newWeights` differ from the vector
held before the call — the final renormalization still fires. -/
theorem C8_counterexample :
    (runLearningCycle ⟨⟨1/2, 1/2, 1/2, 1/2, 1/20⟩, DEFAULT_LEARNING_CONFIG, 0⟩
        [SEOAction.mk ("https://example.com/a") .CTR_FIX 0 0 0 0 none none none none true]).1.adjustments = [] ∧
    (runLearningCycle ⟨⟨1/2, 1/2, 1/2, 1/2, 1/20⟩, DEFAULT_LEARNING_CONFIG, 0⟩
        [SEOAction.mk ("https://example.com/a") .CTR_FIX 0 0 0 0 none none none none true]).1.newWeights ≠
      ⟨1/2, 1/2, 1/2, 1/2, 1/20⟩ := by
  have hfold := foldl_processAction_applied DEFAULT_LEARNING_CONFIG
    [SEOAction.mk ("https://example.com/a") .CTR_FIX 0 0 0 0 none none none none true]
    (by intro a ha; simp at ha; rw [ha]) (⟨1/2, 1/2, 1/2, 1/2, 1/20⟩ : WeightConfig ℚ) [] []
  constructor
  · rw [runLearningCycle_adjustments, hfold]
  · rw [runLearningCycle_newWeights, hfold]
    show normalizeWeights ⟨1/2, 1/2, 1/2, 1/2, 1/20⟩ ≠ _
    rw [normalizeWeights_halves]
    norm_num [WeightConfig.mk.injEq]

theorem foldl_processAction_seen (config : LearningConfig) (acts : List SEOAction) :
    ∀ (w : WeightConfig ℚ) (adjs : List WeightAdjustment) (seen : List SEOAction),
      (acts.foldl (processAction config) (w, adjs, seen)).2.2 = seen ++ acts := by
  induction acts with
  | nil => intro w adjs seen; simp
  | cons a rest ih =>
    intro w adjs seen
    rw [List.foldl_cons]
    have hstep : ((processAction config (w, adjs, seen) a)).2.2 = seen ++ [a] := by
      rw [processAction]
      split
      · rfl
      · dsimp only
        split <;> rfl
    have : processAction config (w, adjs, seen) a =
        ((processAction config (w, adjs, seen) a).1,
         (processAction config (w, adjs, seen) a).2.1,
         seen ++ [a]) := by
      rw [← hstep]
    rw [this, ih]
    simp

/-- Processing one concrete successful unflagged `CTR_FIX` action: the
`ctrGap` weight steps from `0.185` to `0.2` and an adjustment is recorded. -/
theorem processAction_concrete :
    processAction DEFAULT_LEARNING_CONFIG
        (⟨1/5, 1/5, 37/200, 1/5, 1/5⟩, ([] : List WeightAdjustment), ([] : List SEOAction))
        (SEOAction.mk ("https://example.com/page") .CTR_FIX 0 0 (1/10) 0
          none none (some (2/10)) none false) =
      (⟨1/5, 1/5, 1/5, 1/5, 1/5⟩,
        [⟨.ctrGap, round4 (37/200), round4 (1/5),
          (toString ActionBucket.CTR_FIX ++ " success on " ++
            lastUrlSegment ("https://example.com/page"))⟩],
        [SEOAction.mk ("https://example.com/page") .CTR_FIX 0 0 (1/10) 0
          none none (some (2/10)) none false]) := by
  rw [processAction]
  have habs : |(3/200 : ℚ)| = 3/200 := by norm_num
  norm_num [evaluateActionSuccess, SUCCESS_CRITERIA, getWeightKeyForBucket,
    applyAdjustment, wGet, wSet, DEFAULT_LEARNING_CONFIG, habs]

/-- Claim C10: the learning cycle never mutates the `SEOAction` records it
is handed (the loop body contains no write to the record, in particular it
never sets `learningApplied`), and therefore a second cycle over the same
*unflagged* action applies the learning step to the weights again:
concretely, a successful `CTR_FIX` action adjusted on the first cycle is
adjusted again on the second cycle — the second pass records a (non-empty)
adjustment list instead of skipping. -/
theorem C10_actions_never_mutated :
    (∀ (st : AdjusterState) (acts : List SEOAction),
      (runLearningCycle st acts).2.2 = acts) ∧
    ((runLearningCycle
        (runLearningCycle ⟨⟨1/5, 1/5, 37/200, 1/5, 1/5⟩, DEFAULT_LEARNING_CONFIG, 0⟩
          [SEOAction.mk ("https://example.com/page") .CTR_FIX 0 0 (1/10) 0
            none none (some (2/10)) none false]).2.1
        [SEOAction.mk ("https://example.com/page") .CTR_FIX 0 0 (1/10) 0
          none none (some (2/10)) none false]).1.adjustments ≠ []) := by
  constructor
  · intro st acts
    rw [runLearningCycle_seen]
    exact foldl_processAction_seen st.config acts st.weights [] []
  · rw [runLearningCycle_state]
    rw [List.foldl_cons, List.foldl_nil, processAction_concrete]
    have hnorm : normalizeWeights ⟨1/5, 1/5, 1/5, 1/5, 1/5⟩ =
        ⟨1/5, 1/5, 1/5, 1/5, 1/5⟩ := by
      rw [normalizeWeights_mk _ _ _ _ _ (by norm_num)]
      rw [round4_eq ((1/5 : ℚ) / (1/5 + 1/5 + 1/5 + 1/5 + 1/5)) 2000
        (by norm_num) (by norm_num)]
      norm_num [WeightConfig.mk.injEq]
    rw [hnorm, runLearningCycle_adjustments]
    rw [List.foldl_cons, List.foldl_nil]
    rw [processAction]
    have habs : |(3/200 : ℚ)| = 3/200 := by norm_num
    norm_num [evaluateActionSuccess, SUCCESS_CRITERIA, getWeightKeyForBucket,
      applyAdjustment, wGet, wSet, DEFAULT_LEARNING_CONFIG, habs]

/-! ### Model weight table (`src/federation/model-weights.ts`)

`ModelWeights` is `Record<ActionBucket, Record<ModelId, number>>`.  A row
may lack entries at runtime (tables are loaded from saved state through
`setWeights`), and the source guards every read with `?? 0` / `?? 0.25`;
cells are therefore modelled as `Option ℚ`. -/

inductive ModelId
  | claude
  | openai
  | gemini
  | grok
deriving DecidableEq, Fintype

/-- One bucket row of the table: a possibly-partial map `ModelId → number`. -/
structure ModelRow where
  claude : Option ℚ
  openai : Option ℚ
  gemini : Option ℚ
  grok : Option ℚ
deriving DecidableEq

def rGet (r : ModelRow) : ModelId → Option ℚ
  | .claude => r.claude
  | .openai => r.openai
  | .gemini => r.gemini
  | .grok => r.grok

def rSet (r : ModelRow) : ModelId → Option ℚ → ModelRow
  | .claude, v => { r with claude := v }
  | .openai, v => { r with openai := v }
  | .gemini, v => { r with gemini := v }
  | .grok, v => { r with grok := v }

structure ModelWeights where
  ctrFix : ModelRow
  strikingDistance : ModelRow
  relevanceRebuild : ModelRow
  localBoost : ModelRow
  monitor : ModelRow
deriving DecidableEq

def mwGet (w : ModelWeights) : ActionBucket → ModelRow
  | .CTR_FIX => w.ctrFix
  | .STRIKING_DISTANCE => w.strikingDistance
  | .RELEVANCE_REBUILD => w.relevanceRebuild
  | .LOCAL_BOOST => w.localBoost
  | .MONITOR => w.monitor

def mwSet (w : ModelWeights) : ActionBucket → ModelRow → ModelWeights
  | .CTR_FIX, r => { w with ctrFix := r }
  | .STRIKING_DISTANCE, r => { w with strikingDistance := r }
  | .RELEVANCE_REBUILD, r => { w with relevanceRebuild := r }
  | .LOCAL_BOOST, r => { w with localBoost := r }
  | .MONITOR, r => { w with monitor := r }

def uniformRow : ModelRow := ⟨some (1/4), some (1/4), some (1/4), some (1/4)⟩

def DEFAULT_MODEL_WEIGHTS : ModelWeights :=
  ⟨uniformRow, uniformRow, uniformRow, uniformRow, uniformRow⟩

/-- `getWeight` — `this.weights[bucket][modelId] ?? 0`. -/
def getWeight (w : ModelWeights) (bucket : ActionBucket) (modelId : ModelId) : ℚ :=
  (rGet (mwGet w bucket) modelId).getD 0

/-- Value contributed by a cell to `Object.values(row).reduce(+)`: an
absent cell contributes nothing, modelled as `0`. -/
def cellVal (c : Option ℚ) : ℚ := c.getD 0

def rowSum (r : ModelRow) : ℚ :=
  cellVal r.claude + cellVal r.openai + cellVal r.gemini + cellVal r.grok

/-- `normalizeBucket` applied cell-wise: present cells are divided by the
row total and rounded to 4 decimals; absent cells stay absent. -/
def normCell (total : ℚ) (c : Option ℚ) : Option ℚ :=
  c.map (fun v => round4 (v / total))

def normalizeRow (r : ModelRow) : ModelRow :=
  let total := rowSum r
  if total = 0 then r
  else ⟨normCell total r.claude, normCell total r.openai,
        normCell total r.gemini, normCell total r.grok⟩

/-- The clamped value `adjustWeight` writes into the cell:
`Math.max(minWeight, Math.min(maxWeight, (cell ?? 0.25) + delta))`. -/
def adjustedCell (w : ModelWeights) (bucket : ActionBucket) (modelId : ModelId)
    (delta minWeight maxWeight : ℚ) : ℚ :=
  max minWeight (min maxWeight ((rGet (mwGet w bucket) modelId).getD (1/4) + delta))

/-- `ModelWeightManager.adjustWeight` — clamp the cell, then renormalize
only that bucket's row. -/
def adjustWeight (w : ModelWeights) (bucket : ActionBucket) (modelId : ModelId)
    (delta minWeight maxWeight : ℚ) : ModelWeights :=
  let row := rSet (mwGet w bucket) modelId (some (adjustedCell w bucket modelId delta minWeight maxWeight))
  mwSet w bucket (normalizeRow row)

/-! ### Lemmas for claims C2 and C9 -/

theorem mwGet_mwSet_same (w : ModelWeights) (b : ActionBucket) (r : ModelRow) :
    mwGet (mwSet w b r) b = r := by
  cases b <;> rfl

theorem mwGet_mwSet_other (w : ModelWeights) (b b' : ActionBucket) (r : ModelRow)
    (h : b' ≠ b) : mwGet (mwSet w b r) b' = mwGet w b' := by
  cases b <;> cases b' <;> first | rfl | exact absurd rfl h

/-- Per-cell rounding error of the renormalization. -/
theorem cellVal_normCell_err (total : ℚ) (c : Option ℚ) :
    |cellVal (normCell total c) - cellVal c / total| ≤ 1/20000 := by
  cases c with
  | none => simp [cellVal, normCell]
  | some v => simpa [cellVal, normCell] using abs_round4_sub_le (α := ℚ) (v / total)

/-- Renormalizing a row of (at most 4) cells with nonzero total leaves the
row sum within `±2e-4` of `1`. -/
theorem rowSum_normalizeRow (r : ModelRow) (h : rowSum r ≠ 0) :
    |rowSum (normalizeRow r) - 1| ≤ 1/5000 := by
  have e1 := cellVal_normCell_err (rowSum r) r.claude
  have e2 := cellVal_normCell_err (rowSum r) r.openai
  have e3 := cellVal_normCell_err (rowSum r) r.gemini
  have e4 := cellVal_normCell_err (rowSum r) r.grok
  have hsum : cellVal r.claude / rowSum r + cellVal r.openai / rowSum r +
      cellVal r.gemini / rowSum r + cellVal r.grok / rowSum r = 1 := by
    rw [div_add_div_same, div_add_div_same, div_add_div_same]
    exact div_self h
  rw [normalizeRow]
  rw [if_neg h]
  have hns : rowSum (ModelRow.mk (normCell (rowSum r) r.claude)
      (normCell (rowSum r) r.openai) (normCell (rowSum r) r.gemini)
      (normCell (rowSum r) r.grok)) =
      cellVal (normCell (rowSum r) r.claude) + cellVal (normCell (rowSum r) r.openai) +
      cellVal (normCell (rowSum r) r.gemini) + cellVal (normCell (rowSum r) r.grok) := rfl
  rw [hns]
  rw [abs_le] at e1 e2 e3 e4 ⊢
  constructor <;> linarith

/-- Claim C2 (amended): `adjustWeight` leaves the adjusted category's row
summing to `1` within `±2e-4` (4 cells, each rounded to 4 decimals)
whenever the post-clamp row total is nonzero, and leaves every other
category's row exactly unchanged. -/
theorem C2_adjustWeight_row_sum (w : ModelWeights) (b : ActionBucket) (m : ModelId)
    (delta mn mx : ℚ)
    (h : rowSum (rSet (mwGet w b) m (some (adjustedCell w b m delta mn mx))) ≠ 0) :
    |rowSum (mwGet (adjustWeight w b m delta mn mx) b) - 1| ≤ 1/5000 ∧
    ∀ b' : ActionBucket, b' ≠ b →
      mwGet (adjustWeight w b m delta mn mx) b' = mwGet w b' := by
  constructor
  · rw [adjustWeight, mwGet_mwSet_same]
    exact rowSum_normalizeRow _ h
  · intro b' hb'
    rw [adjustWeight, mwGet_mwSet_other _ _ _ _ hb']

/-- Witness for C2: the spec's own scenario — `+0.1` to one provider of a
uniform row under clamps `[0.05, 0.6]`. -/
theorem C2_adjustWeight_row_sum_witness :
    (rowSum (rSet (mwGet DEFAULT_MODEL_WEIGHTS .CTR_FIX) .claude
      (some (adjustedCell DEFAULT_MODEL_WEIGHTS .CTR_FIX .claude (1/10) (1/20) (3/5)))) ≠ 0) ∧
    (|rowSum (mwGet (adjustWeight DEFAULT_MODEL_WEIGHTS .CTR_FIX .claude (1/10) (1/20) (3/5)) .CTR_FIX) - 1|
      ≤ 1/5000 ∧
     ∀ b' : ActionBucket, b' ≠ .CTR_FIX →
       mwGet (adjustWeight DEFAULT_MODEL_WEIGHTS .CTR_FIX .claude (1/10) (1/20) (3/5)) b' =
         mwGet DEFAULT_MODEL_WEIGHTS b') := by
  have hne : rowSum (rSet (mwGet DEFAULT_MODEL_WEIGHTS .CTR_FIX) .claude
      (some (adjustedCell DEFAULT_MODEL_WEIGHTS .CTR_FIX .claude (1/10) (1/20) (3/5)))) ≠ 0 := by
    norm_num [rowSum, rSet, rGet, mwGet, DEFAULT_MODEL_WEIGHTS, uniformRow, cellVal, adjustedCell]
  exact ⟨hne, C2_adjustWeight_row_sum DEFAULT_MODEL_WEIGHTS .CTR_FIX .claude (1/10) (1/20) (3/5) hne⟩

/-- Claim C2 counterexample: a table row `(0.39985, 0.20005, 0.20005,
0.20005)` (total exactly `1`); adjusting the first cell by `0` under the
default clamps leaves the cell untouched, yet renormalization rounds all
four cells up, making the row sum `1.0002` — outside the claimed `±1e-4`.
Other rows are untouched, so the violated conjunct is the sum tolerance. -/
theorem C2_counterexample :
    ¬ (|rowSum (mwGet (adjustWeight
        ⟨⟨some (7997/20000), some (4001/20000), some (4001/20000), some (4001/20000)⟩,
          uniformRow, uniformRow, uniformRow, uniformRow⟩
        .CTR_FIX .claude 0 (1/20) (3/5)) .CTR_FIX) - 1| ≤ 1/10000) := by
  have hcell : adjustedCell
      ⟨⟨some (7997/20000), some (4001/20000), some (4001/20000), some (4001/20000)⟩,
        uniformRow, uniformRow, uniformRow, uniformRow⟩
      .CTR_FIX .claude 0 (1/20) (3/5) = 7997/20000 := by
    norm_num [adjustedCell, rGet, mwGet]
  rw [adjustWeight, mwGet_mwSet_same, hcell]
  have hrow : rSet (mwGet
      (⟨⟨some (7997/20000), some (4001/20000), some (4001/20000), some (4001/20000)⟩,
        uniformRow, uniformRow, uniformRow, uniformRow⟩ : ModelWeights) .CTR_FIX)
      .claude (some (7997/20000)) =
      ⟨some (7997/20000), some (4001/20000), some (4001/20000), some (4001/20000)⟩ := rfl
  rw [hrow]
  have htot : rowSum ⟨some (7997/20000), some (4001/20000), some (4001/20000), some (4001/20000)⟩ = 1 := by
    norm_num [rowSum, cellVal]
  rw [normalizeRow]
  rw [htot]
  rw [if_neg (by norm_num)]
  have h1 : normCell 1 (some (7997/20000 : ℚ)) = some (3999/10000) := by
    rw [normCell, Option.map_some']
    rw [round4_eq ((7997/20000 : ℚ) / 1) 3999 (by norm_num) (by norm_num)]
    norm_num
  have h2 : normCell 1 (some (4001/20000 : ℚ)) = some (2001/10000) := by
    rw [normCell, Option.map_some']
    rw [round4_eq ((4001/20000 : ℚ) / 1) 2001 (by norm_num) (by norm_num)]
    norm_num
  rw [h1, h2]
  have hs : rowSum ⟨some (3999/10000), some (2001/10000), some (2001/10000), some (2001/10000)⟩ - 1
      = 1/5000 := by
    norm_num [rowSum, cellVal]
  rw [hs, abs_of_pos (by norm_num)]
  norm_num

/-! ### Task router (`src/federation/router.ts`)

`RouteDecision.reason` is an informational display string (it interpolates
a percentage via `toFixed(0)`); it is not modelled — no claim reads it. -/

inductive RouteStrategy
  | all
  | top2
  | primary_only
deriving DecidableEq

structure RouteDecision where
  models : List ModelId
  primary : ModelId
  strategy : RouteStrategy
deriving DecidableEq

/-- `TaskRouter.route`.  `availableIds` is the registry's list of
credentialed adapters; the weight table row is read with `?? 0`. -/
def route (availableIds : List ModelId) (modelWeights : ModelWeights)
    (bucket : ActionBucket) : Except String RouteDecision :=
  let bucketWeights := mwGet modelWeights bucket
  match availableIds with
  | [] => .error ("No models available. Provide at least one API key.")
  | [single] => .ok { models := [single], primary := single, strategy := .primary_only }
  | _ =>
    let sorted := insSortK (fun p => p.2)
      (availableIds.map (fun id => (id, (rGet bucketWeights id).getD 0)))
    let primary := (sorted.headD (ModelId.claude, 0)).1
    if availableIds.length = 2 then
      .ok { models := availableIds, primary := primary, strategy := .top2 }
    else
      .ok { models := availableIds, primary := primary, strategy := .all }

/-- Fill a row's missing cells with explicit `0`s. -/
def rowFill0 (r : ModelRow) : ModelRow :=
  ⟨some (cellVal r.claude), some (cellVal r.openai),
   some (cellVal r.gemini), some (cellVal r.grok)⟩

theorem rGet_rowFill0 (r : ModelRow) (m : ModelId) :
    (rGet (rowFill0 r) m).getD 0 = (rGet r m).getD 0 := by
  cases m <;> simp [rGet, rowFill0, cellVal]

/-- Claim C9 (amended): a missing provider-weight cell never raises —
`getWeight` returns `0` for it, and the router's weight lookup behaves
exactly as if the cell held `0`; but `adjustWeight` treats a missing cell
as holding `0.25` (the uniform default), not `0`, before applying its
delta. -/
theorem C9_missing_cell_defaults (w : ModelWeights) (b : ActionBucket) (m : ModelId)
    (hmiss : rGet (mwGet w b) m = none) :
    getWeight w b m = 0 ∧
    (∀ availableIds : List ModelId,
      route availableIds w b =
        route availableIds (mwSet w b (rowFill0 (mwGet w b))) b) ∧
    (∀ delta mn mx : ℚ,
      adjustedCell w b m delta mn mx =
        adjustedCell (mwSet w b (rSet (mwGet w b) m (some (1/4)))) b m delta mn mx) := by
  refine ⟨?_, ?_, ?_⟩
  · rw [getWeight, hmiss]
    rfl
  · intro availableIds
    have hmap : ∀ l : List ModelId,
        l.map (fun id => (id, (rGet (mwGet (mwSet w b (rowFill0 (mwGet w b))) b) id).getD 0)) =
        l.map (fun id => (id, (rGet (mwGet w b) id).getD 0)) := by
      intro l
      refine List.map_congr_left (fun id _ => ?_)
      rw [mwGet_mwSet_same, rGet_rowFill0]
    cases availableIds with
    | nil => rfl
    | cons a tail =>
      cases tail with
      | nil => rfl
      | cons a2 t2 =>
        simp only [route]
        rw [hmap]
  · intro delta mn mx
    rw [adjustedCell, adjustedCell, hmiss, mwGet_mwSet_same]
    have : rGet (rSet (mwGet w b) m (some (1/4))) m = some (1/4) := by
      cases m <;> rfl
    rw [this]
    rfl

def emptyRow : ModelRow := ⟨none, none, none, none⟩

def emptyModelWeights : ModelWeights :=
  ⟨emptyRow, emptyRow, emptyRow, emptyRow, emptyRow⟩

/-- Witness for C9: the `CTR_FIX` row of an entirely empty table. -/
theorem C9_missing_cell_defaults_witness :
    (rGet (mwGet emptyModelWeights .CTR_FIX) .claude = none) ∧
    getWeight emptyModelWeights .CTR_FIX .claude = 0 :=
  ⟨rfl, (C9_missing_cell_defaults emptyModelWeights .CTR_FIX .claude rfl).1⟩

/-- Claim C9 counterexample: `adjustWeight` does *not* treat a missing
cell as `0`.  On an empty row, `adjustWeight(CTR_FIX, claude, 0, 0, 1)`
yields cell `1` (the `0.25` default is clamped, written, and renormalized
against a row total of `0.25`), whereas treating the missing cell as `0`
would leave the cell at `0` (zero row total short-circuits). -/
theorem C9_counterexample :
    getWeight (adjustWeight ⟨⟨none, none, none, none⟩, uniformRow, uniformRow,
        uniformRow, uniformRow⟩ .CTR_FIX .claude 0 0 1) .CTR_FIX .claude = 1 ∧
    getWeight (adjustWeight ⟨⟨some 0, none, none, none⟩, uniformRow, uniformRow,
        uniformRow, uniformRow⟩ .CTR_FIX .claude 0 0 1) .CTR_FIX .claude = 0 := by
  constructor
  · have hcell : adjustedCell ⟨⟨none, none, none, none⟩, uniformRow, uniformRow,
        uniformRow, uniformRow⟩ .CTR_FIX .claude 0 0 1 = 1/4 := by
      norm_num [adjustedCell, rGet, mwGet]
    rw [getWeight, adjustWeight, mwGet_mwSet_same, hcell]
    have hrow : rSet (mwGet (⟨⟨none, none, none, none⟩, uniformRow, uniformRow,
        uniformRow, uniformRow⟩ : ModelWeights) .CTR_FIX) .claude (some (1/4)) =
        ⟨some (1/4), none, none, none⟩ := rfl
    rw [hrow, normalizeRow]
    have htot : rowSum ⟨some (1/4), none, none, none⟩ = 1/4 := by
      norm_num [rowSum, cellVal]
    rw [htot, if_neg (by norm_num)]
    have h1 : normCell (1/4) (some (1/4 : ℚ)) = some 1 := by
      rw [normCell, Option.map_some']
      rw [round4_eq ((1/4 : ℚ) / (1/4)) 10000 (by norm_num) (by norm_num)]
      norm_num
    rw [h1]
    rfl
  · have hcell : adjustedCell ⟨⟨some 0, none, none, none⟩, uniformRow, uniformRow,
        uniformRow, uniformRow⟩ .CTR_FIX .claude 0 0 1 = 0 := by
      norm_num [adjustedCell, rGet, mwGet]
    rw [getWeight, adjustWeight, mwGet_mwSet_same, hcell]
    have hrow : rSet (mwGet (⟨⟨some 0, none, none, none⟩, uniformRow, uniformRow,
        uniformRow, uniformRow⟩ : ModelWeights) .CTR_FIX) .claude (some 0) =
        ⟨some 0, none, none, none⟩ := rfl
    rw [hrow, normalizeRow]
    have htot : rowSum ⟨some 0, none, none, none⟩ = 0 := by
      norm_num [rowSum, cellVal]
    rw [htot, if_pos rfl]
    rfl

/-! ### Pages, CTR curve (`src/core/types.ts`, `src/core/constants.ts`)

`PageData` is polymorphic in the number type: the bucketer works over `ℚ`
(exact), the scorer over `ℝ` (its normalizers take logarithms). -/

inductive Intent
  | local
  | transactional
  | informational
  | mixed
deriving DecidableEq

structure PageData (α : Type) where
  id : Option String
  url : String
  primaryKeyword : String
  clicks : α
  impressions : α
  ctr : α
  position : α
  conversions : α
  sessions : α
  bounceRate : α
  avgSessionDuration : α
  intent : Intent
  isLocalPage : Bool
  localKeywords : List String
  freshnessScore : α
  lastContentUpdate : Option String
  lastUpdated : Option String
deriving DecidableEq

inductive CTRDataSource
  | industry_average
  | custom
  | calculated
deriving DecidableEq

structure CTRCurve (α : Type) where
  position1 : α
  position2 : α
  position3 : α
  position4 : α
  position5 : α
  position6 : α
  position7 : α
  position8 : α
  position9 : α
  position10 : α
  position11_20 : α
  position21Plus : α
  industry : String
  dataSource : CTRDataSource
deriving DecidableEq

def defaultCtrCurve {α : Type} [LinearOrderedField α] : CTRCurve α :=
  ⟨32/100, 20/100, 13/100, 9/100, 7/100, 5/100, 4/100, 3/100, 25/1000, 2/100,
   1/100, 5/1000, "general", .industry_average⟩

/-- `getExpectedCTR` — `Math.round` the position, then walk the curve. -/
def getExpectedCTR {α : Type} [LinearOrderedField α] [FloorRing α]
    (position : α) (curve : CTRCurve α) : α :=
  let pos : ℤ := jsRound position
  if pos ≤ 0 then curve.position1
  else if pos = 1 then curve.position1
  else if pos = 2 then curve.position2
  else if pos = 3 then curve.position3
  else if pos = 4 then curve.position4
  else if pos = 5 then curve.position5
  else if pos = 6 then curve.position6
  else if pos = 7 then curve.position7
  else if pos = 8 then curve.position8
  else if pos = 9 then curve.position9
  else if pos = 10 then curve.position10
  else if pos ≤ 20 then curve.position11_20
  else curve.position21Plus

/-! ### String helpers

JS string primitives (`toLowerCase`, `includes`, single-character `split`)
are modelled structurally over the character list of the string. -/

/-- `String.prototype.toLowerCase` (ASCII as used by the source). -/
def jsToLower (s : String) : String := ⟨s.data.map Char.toLower⟩

def leadsWith : List Char → List Char → Bool
  | [], _ => true
  | _ :: _, [] => false
  | a :: as, b :: bs => a == b && leadsWith as bs

def occursIn (pat : List Char) : List Char → Bool
  | [] => leadsWith pat []
  | c :: rest => leadsWith pat (c :: rest) || occursIn pat rest

/-- `s.includes(pat)`. -/
def containsSub (s pat : String) : Bool := occursIn pat.data s.data

/-- `LOCAL_INDICATORS.keywords`. -/
def LOCAL_KEYWORDS : List String :=
  ["near me", "nearby", "local", "in my area", "close to me"]

/-! ### Action bucketer (`src/engine/bucketer.ts`)

`LOCAL_INDICATORS.cityPatterns` are two JS regular expressions; the regex
engine is an external library, modelled as an arbitrary predicate
`cityPat` on the (already lowercased) combined string.  Every theorem
below holds for every such predicate. -/

structure CtrFixCriteria where
  minImpressions : ℚ
  ctrGapThreshold : ℚ
deriving DecidableEq

structure BandCriteria where
  minPosition : ℚ
  maxPosition : ℚ
  minImpressions : ℚ
deriving DecidableEq

structure LocalBoostCriteria where
  requiresLocalIntent : Bool
deriving DecidableEq

structure MonitorCriteria where
  maxPosition : ℚ
deriving DecidableEq

structure BucketCriteria where
  ctrFix : CtrFixCriteria
  strikingDistance : BandCriteria
  relevanceRebuild : BandCriteria
  localBoost : LocalBoostCriteria
  monitor : MonitorCriteria
deriving DecidableEq

def BUCKET_CRITERIA : BucketCriteria :=
  ⟨⟨500, 5/100⟩, ⟨4, 10, 100⟩, ⟨11, 50, 50⟩, ⟨true⟩, ⟨3⟩⟩

def isCTRFix (criteria : BucketCriteria) (curve : CTRCurve ℚ) (page : PageData ℚ) : Bool :=
  decide (page.impressions ≥ criteria.ctrFix.minImpressions) &&
  decide (page.ctr < getExpectedCTR page.position curve * (1 - criteria.ctrFix.ctrGapThreshold))

def isStrikingDistance (criteria : BucketCriteria) (page : PageData ℚ) : Bool :=
  decide (page.position ≥ criteria.strikingDistance.minPosition) &&
  decide (page.position ≤ criteria.strikingDistance.maxPosition) &&
  decide (page.impressions ≥ criteria.strikingDistance.minImpressions)

def isRelevanceRebuild (criteria : BucketCriteria) (page : PageData ℚ) : Bool :=
  decide (page.position ≥ criteria.relevanceRebuild.minPosition) &&
  decide (page.position ≤ criteria.relevanceRebuild.maxPosition) &&
  decide (page.impressions ≥ criteria.relevanceRebuild.minImpressions)

/-- `detectLocalIntent` — keyword inclusion, city/service patterns (the
`cityPat` parameter), then a non-empty `localKeywords` array. -/
def detectLocalIntent (cityPat : String → Bool) (page : PageData ℚ) : Bool :=
  let urlAndKeyword := jsToLower (page.url ++ " " ++ page.primaryKeyword)
  LOCAL_KEYWORDS.any (fun k => containsSub urlAndKeyword (jsToLower k)) ||
  cityPat urlAndKeyword ||
  decide (page.localKeywords.length > 0)

def isLocalBoost (cityPat : String → Bool) (page : PageData ℚ) : Bool :=
  if !page.isLocalPage && !(page.intent == .local) then
    if !detectLocalIntent cityPat page then false
    else decide (page.position > 3)
  else decide (page.position > 3)

def isMonitor (criteria : BucketCriteria) (page : PageData ℚ) : Bool :=
  decide (page.position ≤ criteria.monitor.maxPosition)

/-- `ActionBucketer.classify` — fixed precedence, `MONITOR` first. -/
def classify (criteria : BucketCriteria) (curve : CTRCurve ℚ)
    (cityPat : String → Bool) (page : PageData ℚ) : ActionBucket :=
  if isMonitor criteria page then .MONITOR
  else if isCTRFix criteria curve page then .CTR_FIX
  else if isStrikingDistance criteria page then .STRIKING_DISTANCE
  else if isLocalBoost cityPat page then .LOCAL_BOOST
  else if isRelevanceRebuild criteria page then .RELEVANCE_REBUILD
  else .MONITOR

/-- Claim C5: `classify` is total — every page maps to exactly one of the
five categories — and whenever the page's position lies within the stable
band (`position ≤ criteria.MONITOR.maxPosition`), the result is `MONITOR`
regardless of every other signal, for every criteria configuration, CTR
curve and city-pattern predicate. -/
theorem C5_classify_total_monitor_first (criteria : BucketCriteria)
    (curve : CTRCurve ℚ) (cityPat : String → Bool) (page : PageData ℚ) :
    (∃! b : ActionBucket, classify criteria curve cityPat page = b) ∧
    (page.position ≤ criteria.monitor.maxPosition →
      classify criteria curve cityPat page = .MONITOR) := by
  constructor
  · exact ⟨classify criteria curve cityPat page, rfl, fun b hb => hb.symm⟩
  · intro h
    rw [classify, if_pos (by rw [isMonitor]; exact decide_eq_true h)]

/-- Witness for C5: a rank-2 page saturating every other rule's signals
(high impressions, zero CTR, explicit local flags, adversarial
`cityPat ≡ true`) still classifies as `MONITOR`. -/
theorem C5_classify_total_monitor_first_witness :
    ((⟨none, "https://example.com/local-plumbers", "plumbers near me", 100, 1000000,
        0, 2, 50, 0, 0, 0, .local, true, ["near me"], 0, none, none⟩ :
      PageData ℚ).position ≤ BUCKET_CRITERIA.monitor.maxPosition) ∧
    classify BUCKET_CRITERIA defaultCtrCurve (fun _ => true)
      ⟨none, "https://example.com/local-plumbers", "plumbers near me", 100, 1000000,
        0, 2, 50, 0, 0, 0, .local, true, ["near me"], 0, none, none⟩ = .MONITOR :=
  ⟨by norm_num [BUCKET_CRITERIA],
    (C5_classify_total_monitor_first BUCKET_CRITERIA defaultCtrCurve (fun _ => true)
      ⟨none, "https://example.com/local-plumbers", "plumbers near me", 100, 1000000,
        0, 2, 50, 0, 0, 0, .local, true, ["near me"], 0, none, none⟩).2
      (by norm_num [BUCKET_CRITERIA])⟩

/-! ### Opportunity scorer (`src/engine/scorer.ts`)

The normalizers use `Math.log10`; the scorer is therefore modelled over
`ℝ` with `Real.logb 10` (exact real semantics — `noncomputable`, like the
logarithm itself). -/

structure NormalizedScores (α : Type) where
  impressions : α
  position : α
  ctrGap : α
  conversions : α
  freshness : α
deriving DecidableEq

noncomputable def normalizeImpressions (impressions : ℝ) : ℝ :=
  clampTo (Real.logb 10 (impressions + 1) / 5) 0 1

noncomputable def normalizePosition (position : ℝ) : ℝ :=
  clampTo ((50 - position) / 50) 0 1

noncomputable def normalizeCTRGap (curve : CTRCurve ℝ) (position actualCtr : ℝ) : ℝ :=
  let expectedCtr := getExpectedCTR position curve
  if expectedCtr ≤ 0 then 0
  else clampTo ((expectedCtr - actualCtr) / expectedCtr) 0 1

noncomputable def normalizeConversions (conversions : ℝ) : ℝ :=
  clampTo (Real.logb 10 (conversions + 1) / 2) 0 1

noncomputable def normalizeFreshness (freshnessScore : ℝ) : ℝ :=
  clampTo freshnessScore 0 1

noncomputable def getNormalizedScores (curve : CTRCurve ℝ) (page : PageData ℝ) :
    NormalizedScores ℝ :=
  { impressions := normalizeImpressions page.impressions,
    position := normalizePosition page.position,
    ctrGap := normalizeCTRGap curve page.position page.ctr,
    conversions := normalizeConversions page.conversions,
    freshness := normalizeFreshness page.freshnessScore }

/-- `OpportunityScorer.calculateScore` — weighted sum of the normalized
components, rounded to 4 decimals. -/
noncomputable def calculateScore (weights : WeightConfig ℝ) (curve : CTRCurve ℝ)
    (page : PageData ℝ) : ℝ :=
  let normalized := getNormalizedScores curve page
  let score :=
    weights.impressions * normalized.impressions +
    weights.position * normalized.position +
    weights.ctrGap * normalized.ctrGap +
    weights.conversions * normalized.conversions +
    weights.freshness * normalized.freshness
  round4 score

/-! ### Lemmas for claim C4 -/

theorem clampTo01_nonneg (v : ℝ) : 0 ≤ clampTo v 0 1 := le_clampTo v 0 1

theorem clampTo01_le_one (v : ℝ) : clampTo v 0 1 ≤ 1 := clampTo_le v (by norm_num)

theorem clampTo01_of_one_le {v : ℝ} (h : 1 ≤ v) : clampTo v 0 1 = 1 := by
  rw [clampTo, min_eq_left h, max_eq_right (by norm_num : (0:ℝ) ≤ 1)]

theorem normalizeCTRGap_mem (curve : CTRCurve ℝ) (position actualCtr : ℝ) :
    0 ≤ normalizeCTRGap curve position actualCtr ∧
      normalizeCTRGap curve position actualCtr ≤ 1 := by
  rw [normalizeCTRGap]
  split
  · norm_num
  · exact ⟨clampTo01_nonneg _, clampTo01_le_one _⟩

theorem round4_nonneg {α : Type} [LinearOrderedField α] [FloorRing α] {x : α}
    (h : 0 ≤ x) : 0 ≤ round4 x := by
  rw [round4]
  apply div_nonneg _ (by norm_num : (0:α) ≤ 10000)
  have hz : (0:ℤ) ≤ jsRound (x * 10000) := by
    rw [jsRound]
    refine Int.le_floor.mpr ?_
    push_cast
    linarith
  exact_mod_cast hz

theorem round4_le_bound {α : Type} [LinearOrderedField α] [FloorRing α] {x : α}
    (n : ℤ) (h : x * 10000 + 1/2 < (n:α) + 1) : round4 x ≤ (n:α)/10000 := by
  rw [round4]
  rw [div_le_div_iff_of_pos_right (by norm_num : (0:α) < 10000)]
  have hz : jsRound (x * 10000) ≤ n := by
    have hlt : jsRound (x * 10000) < n + 1 := by
      rw [jsRound]
      refine Int.floor_lt.mpr ?_
      push_cast
      linarith
    omega
  exact_mod_cast hz

/-- Claim C4 (amended): for every CTR curve, every page with arbitrary
real metrics, and every weight vector satisfying the content-weight
invariant (components in `[0.05, 0.50]`, sum `1.0 ± 1e-4`), the score lies
in `[0, 1 + 1e-4]` — the upper end is `1.0001`, not `1`, because the
invariant tolerates a weight sum of up to `1.0001` and the normalized
components can all saturate at `1`. -/
theorem C4_score_bounds (weights : WeightConfig ℝ) (curve : CTRCurve ℝ)
    (page : PageData ℝ)
    (h1 : ∀ k, 1/20 ≤ wGet weights k ∧ wGet weights k ≤ 1/2)
    (h2 : |wSum weights - 1| ≤ 1/10000) :
    0 ≤ calculateScore weights curve page ∧
      calculateScore weights curve page ≤ 1 + 1/10000 := by
  have hi := h1 .impressions
  have hp := h1 .position
  have hc := h1 .ctrGap
  have hv := h1 .conversions
  have hf := h1 .freshness
  simp only [wGet] at hi hp hc hv hf
  rw [abs_le] at h2
  rw [wSum] at h2
  have n1 : 0 ≤ normalizeImpressions page.impressions ∧
      normalizeImpressions page.impressions ≤ 1 :=
    ⟨clampTo01_nonneg _, clampTo01_le_one _⟩
  have n2 : 0 ≤ normalizePosition page.position ∧
      normalizePosition page.position ≤ 1 :=
    ⟨clampTo01_nonneg _, clampTo01_le_one _⟩
  have n3 := normalizeCTRGap_mem curve page.position page.ctr
  have n4 : 0 ≤ normalizeConversions page.conversions ∧
      normalizeConversions page.conversions ≤ 1 :=
    ⟨clampTo01_nonneg _, clampTo01_le_one _⟩
  have n5 : 0 ≤ normalizeFreshness page.freshnessScore ∧
      normalizeFreshness page.freshnessScore ≤ 1 :=
    ⟨clampTo01_nonneg _, clampTo01_le_one _⟩
  rw [calculateScore]
  have hs0 : 0 ≤ weights.impressions * normalizeImpressions page.impressions +
      weights.position * normalizePosition page.position +
      weights.ctrGap * normalizeCTRGap curve page.position page.ctr +
      weights.conversions * normalizeConversions page.conversions +
      weights.freshness * normalizeFreshness page.freshnessScore := by
    have := mul_nonneg (by linarith [hi.1] : (0:ℝ) ≤ weights.impressions) n1.1
    have := mul_nonneg (by linarith [hp.1] : (0:ℝ) ≤ weights.position) n2.1
    have := mul_nonneg (by linarith [hc.1] : (0:ℝ) ≤ weights.ctrGap) n3.1
    have := mul_nonneg (by linarith [hv.1] : (0:ℝ) ≤ weights.conversions) n4.1
    have := mul_nonneg (by linarith [hf.1] : (0:ℝ) ≤ weights.freshness) n5.1
    linarith
  have hs1 : weights.impressions * normalizeImpressions page.impressions +
      weights.position * normalizePosition page.position +
      weights.ctrGap * normalizeCTRGap curve page.position page.ctr +
      weights.conversions * normalizeConversions page.conversions +
      weights.freshness * normalizeFreshness page.freshnessScore ≤ 1 + 1/10000 := by
    have b1 := mul_le_of_le_one_right (by linarith [hi.1] : (0:ℝ) ≤ weights.impressions) n1.2
    have b2 := mul_le_of_le_one_right (by linarith [hp.1] : (0:ℝ) ≤ weights.position) n2.2
    have b3 := mul_le_of_le_one_right (by linarith [hc.1] : (0:ℝ) ≤ weights.ctrGap) n3.2
    have b4 := mul_le_of_le_one_right (by linarith [hv.1] : (0:ℝ) ≤ weights.conversions) n4.2
    have b5 := mul_le_of_le_one_right (by linarith [hf.1] : (0:ℝ) ≤ weights.freshness) n5.2
    linarith
  constructor
  · exact round4_nonneg hs0
  · have := round4_le_bound (x :=
      weights.impressions * normalizeImpressions page.impressions +
      weights.position * normalizePosition page.position +
      weights.ctrGap * normalizeCTRGap curve page.position page.ctr +
      weights.conversions * normalizeConversions page.conversions +
      weights.freshness * normalizeFreshness page.freshnessScore) 10001 (by push_cast; linarith)
    calc round4 _ ≤ ((10001 : ℤ) : ℝ)/10000 := this
    _ = 1 + 1/10000 := by norm_num

/-- Witness for C4: the default weight vector satisfies the invariant, so
the score of any concrete page is bounded. -/
theorem C4_score_bounds_witness :
    ((∀ k, 1/20 ≤ wGet (⟨1/5, 1/5, 1/5, 1/5, 1/5⟩ : WeightConfig ℝ) k ∧
        wGet (⟨1/5, 1/5, 1/5, 1/5, 1/5⟩ : WeightConfig ℝ) k ≤ 1/2) ∧
      |wSum (⟨1/5, 1/5, 1/5, 1/5, 1/5⟩ : WeightConfig ℝ) - 1| ≤ 1/10000) ∧
    (0 ≤ calculateScore ⟨1/5, 1/5, 1/5, 1/5, 1/5⟩ defaultCtrCurve
        ⟨none, "https://example.com/", "kw", 12, 340, 1/10, 7, 2, 0, 0, 0,
          .informational, false, [], 1/2, none, none⟩ ∧
      calculateScore ⟨1/5, 1/5, 1/5, 1/5, 1/5⟩ defaultCtrCurve
        ⟨none, "https://example.com/", "kw", 12, 340, 1/10, 7, 2, 0, 0, 0,
          .informational, false, [], 1/2, none, none⟩ ≤ 1 + 1/10000) :=
  ⟨⟨fun k => by cases k <;> exact ⟨by norm_num [wGet], by norm_num [wGet]⟩,
    by rw [wSum]; norm_num⟩,
   C4_score_bounds ⟨1/5, 1/5, 1/5, 1/5, 1/5⟩ defaultCtrCurve
    ⟨none, "https://example.com/", "kw", 12, 340, 1/10, 7, 2, 0, 0, 0,
      .informational, false, [], 1/2, none, none⟩
    (fun k => by cases k <;> exact ⟨by norm_num [wGet], by norm_num [wGet]⟩)
    (by rw [wSum]; norm_num)⟩

theorem logb_100001_ge_five : (5:ℝ) ≤ Real.logb 10 100001 := by
  rw [Real.le_logb_iff_rpow_le (by norm_num : (1:ℝ) < 10) (by norm_num : (0:ℝ) < 100001)]
  rw [show ((5:ℝ)) = ((5:ℕ):ℝ) by norm_num, Real.rpow_natCast]
  norm_num

theorem logb_100_eq_two : Real.logb 10 (100:ℝ) = 2 := by
  rw [show (100:ℝ) = (10:ℝ) ^ (2:ℝ) by
    rw [show ((2:ℝ)) = ((2:ℕ):ℝ) by norm_num, Real.rpow_natCast]; norm_num]
  exact Real.logb_rpow (by norm_num) (by norm_num)

/-- Claim C4 counterexample: the claim's invariant admits the weight
vector `(0.2, 0.2, 0.2, 0.2, 0.2001)` (components in `[0.05, 0.5]`, sum
`1.0001`, within `±1e-4`), and a page saturating all five normalized
components at `1` (100000 impressions, rank 0, zero CTR, 99 conversions,
freshness 1) scores exactly `1.0001 ∉ [0, 1]`. -/
theorem C4_counterexample :
    ((∀ k, 1/20 ≤ wGet (⟨1/5, 1/5, 1/5, 1/5, 2001/10000⟩ : WeightConfig ℝ) k ∧
        wGet (⟨1/5, 1/5, 1/5, 1/5, 2001/10000⟩ : WeightConfig ℝ) k ≤ 1/2) ∧
      |wSum (⟨1/5, 1/5, 1/5, 1/5, 2001/10000⟩ : WeightConfig ℝ) - 1| ≤ 1/10000) ∧
    calculateScore ⟨1/5, 1/5, 1/5, 1/5, 2001/10000⟩ defaultCtrCurve
      ⟨none, "https://example.com/top", "kw", 0, 100000, 0, 0, 99, 0, 0, 0,
        .informational, false, [], 1, none, none⟩ = 10001/10000 ∧
    ¬ (calculateScore ⟨1/5, 1/5, 1/5, 1/5, 2001/10000⟩ defaultCtrCurve
      ⟨none, "https://example.com/top", "kw", 0, 100000, 0, 0, 99, 0, 0, 0,
        .informational, false, [], 1, none, none⟩ ≤ 1) := by
  have hn1 : normalizeImpressions (100000 : ℝ) = 1 := by
    rw [normalizeImpressions]
    refine clampTo01_of_one_le ?_
    have := logb_100001_ge_five
    rw [show ((100000:ℝ) + 1) = 100001 by norm_num]
    linarith
  have hn2 : normalizePosition (0 : ℝ) = 1 := by
    rw [normalizePosition, show ((50:ℝ) - 0)/50 = 1 by norm_num]
    exact clampTo01_of_one_le le_rfl
  have hexp : getExpectedCTR (0 : ℝ) defaultCtrCurve = 32/100 := by
    have hjs : jsRound (0 : ℝ) = 0 := jsRound_eq (0:ℝ) 0 (by norm_num) (by norm_num)
    rw [getExpectedCTR]
    rw [hjs]
    norm_num [defaultCtrCurve]
  have hn3 : normalizeCTRGap defaultCtrCurve (0 : ℝ) 0 = 1 := by
    rw [normalizeCTRGap]
    rw [hexp]
    rw [if_neg (by norm_num)]
    rw [show ((32:ℝ)/100 - 0)/(32/100) = 1 by norm_num]
    exact clampTo01_of_one_le le_rfl
  have hn4 : normalizeConversions (99 : ℝ) = 1 := by
    rw [normalizeConversions]
    rw [show ((99:ℝ) + 1) = 100 by norm_num]
    rw [logb_100_eq_two]
    rw [show ((2:ℝ)/2) = 1 by norm_num]
    exact clampTo01_of_one_le le_rfl
  have hn5 : normalizeFreshness (1 : ℝ) = 1 := clampTo01_of_one_le le_rfl
  have hscore : calculateScore ⟨1/5, 1/5, 1/5, 1/5, 2001/10000⟩ defaultCtrCurve
      ⟨none, "https://example.com/top", "kw", 0, 100000, 0, 0, 99, 0, 0, 0,
        .informational, false, [], 1, none, none⟩ = 10001/10000 := by
    rw [calculateScore, getNormalizedScores]
    dsimp only
    rw [hn1, hn2, hn3, hn4, hn5]
    rw [show ((1:ℝ)/5 * 1 + 1/5 * 1 + 1/5 * 1 + 1/5 * 1 + 2001/10000 * 1) =
      10001/10000 by norm_num]
    rw [round4_eq ((10001:ℝ)/10000) 10001 (by norm_num) (by norm_num)]
    norm_num
  refine ⟨⟨fun k => by cases k <;> exact ⟨by norm_num [wGet], by norm_num [wGet]⟩,
    ?_⟩, hscore, ?_⟩
  · rw [wSum]
    norm_num
    exact le_of_eq (abs_of_pos (by norm_num))
  · rw [hscore]
    norm_num

/-! ### Content briefs and the consensus engine (`src/federation/consensus.ts`)

The adapter fan-out (`Promise.allSettled`) yields, per adapter, either a
brief (fulfilled) or a failure; `generateConsensus` is modelled over that
settled list, in adapter order (`allSettled` preserves input order).  The
TS non-null assertion `c.brief!` — exercised only where every contribution
carries a brief — is modelled by defaulting to `unreachableBrief`. -/

inductive BriefStatus
  | draft
  | approved
  | executing
  | completed
  | cancelled
deriving DecidableEq

structure MetricsSnapshot where
  clicks : ℚ
  impressions : ℚ
  ctr : ℚ
  position : ℚ
  conversions : ℚ
deriving DecidableEq

structure ContentBrief where
  url : String
  targetKeyword : String
  bucket : ActionBucket
  titleRecommendations : List String
  h1Recommendation : String
  metaDescription : String
  targetWordCount : ℚ
  h2Additions : List String
  internalLinks : List (String × String)
  priorityTasks : List String
  schemaStack : List String
  keywordDensityTarget : String
  mandatoryPlacements : List String
  metricsSnapshot : Option MetricsSnapshot
  status : BriefStatus
  generatedBy : Option ModelId
  contributingModels : Option (List ModelId)
  consensusConfidence : Option ℚ
deriving DecidableEq

structure ModelContribution where
  modelId : ModelId
  weight : ℚ
  briefHash : String
  brief : Option ContentBrief
deriving DecidableEq

inductive ConsensusStrategy
  | single
  | consensus
  | primary
deriving DecidableEq

structure ConsensusResult where
  brief : ContentBrief
  confidence : ℚ
  contributions : List ModelContribution
  primaryModel : ModelId
  modelOutputs : List (ModelId × ContentBrief)
  strategy : ConsensusStrategy
deriving DecidableEq

def unreachableBrief : ContentBrief :=
  ⟨"", "", .CTR_FIX, [], "", "", 0, [], [], [], [], "", [], none, .draft,
   none, none, none⟩

/-- `hashBrief` — a display key; `ℚ`'s string form stands in for JS number
formatting (no claim reads the hash's text). -/
def hashBrief (brief : ContentBrief) : String :=
  String.intercalate ("|") [brief.targetKeyword, toString brief.targetWordCount,
    toString brief.h2Additions.length, toString brief.priorityTasks.length]

/-- `s.slice(0, n)`. -/
def strTake (s : String) (n : ℕ) : String := ⟨s.data.take n⟩

/-- Jaccard similarity of two JS `Set`s built from the given arrays
(`intersection.size / union.size`, `1` on two empty sets). -/
def jaccard (a b : List String) : ℚ :=
  let sa := dedupKeep a
  let sb := dedupKeep b
  let inter := sa.filter (fun x => decide (x ∈ sb))
  let uni := dedupKeep (sa ++ sb)
  if uni.length > 0 then (inter.length : ℚ) / uni.length else 1

/-- The four agreement sub-scores of one pair of briefs, averaged (the
source's `dimensions` counter is always `4`).  `ℚ` division by zero makes
the word-count ratio `0` where JS produces `NaN` (both targets `0`). -/
def pairScore (a b : ContentBrief) : ℚ :=
  let wcRatio := min a.targetWordCount b.targetWordCount /
    max a.targetWordCount b.targetWordCount
  let s1 := if wcRatio > 4/5 then 1 else wcRatio
  let s2 := jaccard (a.h2Additions.map jsToLower) (b.h2Additions.map jsToLower)
  let s3 := jaccard a.schemaStack b.schemaStack
  let s4 := jaccard (a.priorityTasks.map (fun t => strTake (jsToLower t) 30))
    (b.priorityTasks.map (fun t => strTake (jsToLower t) 30))
  (s1 + s2 + s3 + s4) / 4

/-- All ordered pairs `i < j` of a list, in the double-loop order. -/
def listPairs {α : Type} : List α → List (α × α)
  | [] => []
  | x :: xs => xs.map (fun y => (x, y)) ++ listPairs xs

/-- `calculateConfidence` — average the pairwise agreement scores. -/
def calculateConfidence (contributions : List ModelContribution) : ℚ :=
  if contributions.length ≤ 1 then 1
  else
    let pairs := listPairs contributions
    let agreementScore := pairs.foldl (fun acc p =>
      acc + pairScore (p.1.brief.getD unreachableBrief) (p.2.brief.getD unreachableBrief)) 0
    if pairs.length > 0 then agreementScore / pairs.length else 1

/-- The weight the merge reads for a contribution:
`bucketWeights[c.modelId] ?? 0`. -/
def contribKey (bucketWeights : ModelRow) (c : ModelContribution) : ℚ :=
  (rGet bucketWeights c.modelId).getD 0

/-- One `h2Counts.set(key, (get(key) || 0) + 1)` step on the
insertion-ordered map (JS `Map` keeps first-insertion position). -/
def bump : List (String × ℕ) → String → List (String × ℕ)
  | [], k => [(k, 1)]
  | (k', c) :: rest, k =>
    if k' = k then (k', c + 1) :: rest else (k', c) :: bump rest k

/-- Original casing of `k`'s first occurrence across the sorted briefs
(the `for … find` loop of the merge). -/
def firstCasing (briefs : List ContentBrief) (k : String) : String :=
  (briefs.findSome? (fun b => b.h2Additions.find? (fun h => jsToLower h == k))).getD k

/-- The H2 merge of `mergeBriefs`: count lowercased headings in order,
stable-sort by count descending, restore first-occurrence casing. -/
def mergeH2With (sh : ((String × ℕ) → ℕ) → List (String × ℕ) → List (String × ℕ))
    (briefs : List ContentBrief) : List String :=
  let lowers := (briefs.flatMap (fun b => b.h2Additions)).map jsToLower
  let counts := lowers.foldl bump []
  (sh (fun p => p.2) counts).map (fun p => firstCasing briefs p.1)

/-- `mergeBriefs`, parametric in the two `Array.prototype.sort` calls it
performs (contributions by live weight; heading counts by frequency); both
parameters are instantiated with the stable insertion sort below, and
claim C7 shows any stable sort yields the same output.  Returns `none`
exactly where the source would crash (no contribution carries a brief —
unreachable from its call site). -/
def mergeBriefsWith (sc : (ModelContribution → ℚ) → List ModelContribution → List ModelContribution)
    (sh : ((String × ℕ) → ℕ) → List (String × ℕ) → List (String × ℕ))
    (contributions : List ModelContribution) (bucketWeights : ModelRow)
    (page : PageData ℚ) (bucket : ActionBucket) : Option ContentBrief :=
  let sorted := sc (contribKey bucketWeights) (contributions.filter (fun c => c.brief.isSome))
  let briefs := sorted.filterMap (fun c => c.brief)
  match briefs with
  | [] => none
  | primary :: _ =>
    let uniqueTitles := (dedupKeep (briefs.flatMap (fun b => b.titleRecommendations))).take 3
    let mergedH2s := mergeH2With sh briefs
    let uniqueTasks := dedupKeep (briefs.flatMap (fun b => b.priorityTasks))
    let uniqueSchema := dedupKeep (briefs.flatMap (fun b => b.schemaStack))
    let totalWeight := sorted.foldl (fun acc c => acc + contribKey bucketWeights c) 0
    let weightedWordCount := sorted.foldl (fun acc c =>
      acc + (match c.brief with | some b => b.targetWordCount | none => 0) *
        contribKey bucketWeights c) 0
    let avgWordCount : ℚ := if totalWeight > 0
      then ((jsRound (weightedWordCount / totalWeight) : ℤ) : ℚ)
      else primary.targetWordCount
    some
      { url := page.url,
        targetKeyword := page.primaryKeyword,
        bucket := bucket,
        titleRecommendations := uniqueTitles,
        h1Recommendation := primary.h1Recommendation,
        metaDescription := primary.metaDescription,
        targetWordCount := avgWordCount,
        h2Additions := mergedH2s,
        internalLinks := primary.internalLinks,
        priorityTasks := uniqueTasks,
        schemaStack := uniqueSchema,
        keywordDensityTarget := primary.keywordDensityTarget,
        mandatoryPlacements := primary.mandatoryPlacements,
        metricsSnapshot := primary.metricsSnapshot,
        status := .draft,
        generatedBy := none, contributingModels := none, consensusConfidence := none }

def mergeBriefs : List ModelContribution → ModelRow → PageData ℚ → ActionBucket →
    Option ContentBrief :=
  mergeBriefsWith insSortK insSortK

/-- JS `Map.prototype.set` on an insertion-ordered association list. -/
def mapSet (m : List (ModelId × ContentBrief)) (k : ModelId) (v : ContentBrief) :
    List (ModelId × ContentBrief) :=
  if m.any (fun p => p.1 == k) then m.map (fun p => if p.1 == k then (k, v) else p)
  else m ++ [(k, v)]

/-- The fan-out path of `generateConsensus` (two or more adapters, or
none): gather the fulfilled results, then dispatch on how many there are. -/
def fanOutConsensus (consensusThreshold : ℚ) (bucketWeights : ModelRow)
    (results : List (ModelId × Option ContentBrief))
    (page : PageData ℚ) (bucket : ActionBucket) : Except String ConsensusResult :=
  let fulfilled := results.filterMap (fun r => r.2.map (fun b => (r.1, b)))
  let modelOutputs := fulfilled.foldl (fun m p => mapSet m p.1 p.2) []
  let contributions : List ModelContribution := fulfilled.map (fun p =>
    ⟨p.1, (rGet bucketWeights p.1).getD 0, hashBrief p.2, some p.2⟩)
  match contributions with
  | [] => .error ("All model adapters failed to generate briefs")
  | [c] =>
    .ok
      { brief := c.brief.getD unreachableBrief,
        confidence := 1,
        contributions := [c],
        primaryModel := c.modelId,
        modelOutputs := modelOutputs,
        strategy := .single }
  | _ =>
    let confidence := calculateConfidence contributions
    let sortedContribs := insSortK (fun c => c.weight) contributions
    let primaryModel := (sortedContribs.headD ⟨.claude, 0, "", none⟩).modelId
    let chosen :=
      if confidence ≥ consensusThreshold then
        (mergeBriefs sortedContribs bucketWeights page bucket).getD unreachableBrief
      else
        ((sortedContribs.find? (fun c => c.modelId == primaryModel)).bind
          (fun c => c.brief)).getD unreachableBrief
    let merged :=
      { chosen with
        generatedBy := some primaryModel,
        contributingModels := some (sortedContribs.map (fun c => c.modelId)),
        consensusConfidence := some confidence }
    .ok
      { brief := merged,
        confidence := confidence,
        contributions := sortedContribs,
        primaryModel := primaryModel,
        modelOutputs := modelOutputs,
        strategy := if confidence ≥ consensusThreshold then .consensus else .primary }

/-- `ConsensusEngine.generateConsensus` over the settled adapter results
(adapter id × fulfilled brief, in adapter order — `Promise.allSettled`
preserves input order). -/
def generateConsensus (consensusThreshold : ℚ)
    (results : List (ModelId × Option ContentBrief))
    (page : PageData ℚ) (bucket : ActionBucket) (modelWeights : ModelWeights) :
    Except String ConsensusResult :=
  let bucketWeights := mwGet modelWeights bucket
  match results with
  | [(m, ob)] =>
    -- single adapter: its brief is authoritative; a failure propagates
    match ob with
    | none => .error ("brief generation failed")
    | some brief =>
      .ok
        { brief := brief,
          confidence := 1,
          contributions := [⟨m, (rGet bucketWeights m).getD 1, hashBrief brief, some brief⟩],
          primaryModel := m,
          modelOutputs := [(m, brief)],
          strategy := .single }
  | _ => fanOutConsensus consensusThreshold bucketWeights results page bucket

/-! ### Lemmas for claim C3 -/

theorem fulfilled_eq_nil_iff (results : List (ModelId × Option ContentBrief)) :
    results.filterMap (fun r => r.2.map (fun b => (r.1, b))) = [] ↔
      ∀ r ∈ results, r.2 = none := by
  induction results with
  | nil => simp
  | cons r rs ih =>
    cases hr : r.2 with
    | none => simp [List.filterMap_cons, hr, ih]
    | some b => simp [List.filterMap_cons, hr]

theorem fulfilled_length (results : List (ModelId × Option ContentBrief)) :
    (results.filterMap (fun r => r.2.map (fun b => (r.1, b)))).length =
      (results.filterMap (fun r => r.2)).length := by
  induction results with
  | nil => rfl
  | cons r rs ih => cases hr : r.2 <;> simp [List.filterMap_cons, hr, ih]

theorem fanOutConsensus_error_iff (threshold : ℚ) (bucketWeights : ModelRow)
    (results : List (ModelId × Option ContentBrief))
    (page : PageData ℚ) (bucket : ActionBucket) :
    (∃ e, fanOutConsensus threshold bucketWeights results page bucket = .error e) ↔
      ∀ r ∈ results, r.2 = none := by
  rw [fanOutConsensus]
  cases hF : results.filterMap (fun r => r.2.map (fun b => (r.1, b))) with
  | nil =>
    simp only [List.map_nil]
    exact ⟨fun _ => (fulfilled_eq_nil_iff results).mp hF, fun _ => ⟨_, rfl⟩⟩
  | cons c cs =>
    have hnot : ¬ ∀ r ∈ results, r.2 = none := by
      intro hall
      rw [(fulfilled_eq_nil_iff results).mpr hall] at hF
      exact List.noConfusion hF
    simp only [List.map_cons]
    cases cs with
    | nil =>
      simp only [List.map_nil]
      exact ⟨fun ⟨e, he⟩ => absurd he (by simp), fun h => absurd h hnot⟩
    | cons c2 cs2 =>
      simp only [List.map_cons]
      exact ⟨fun ⟨e, he⟩ => absurd he (by simp), fun h => absurd h hnot⟩

theorem fanOutConsensus_one_success (threshold : ℚ) (bucketWeights : ModelRow)
    (results : List (ModelId × Option ContentBrief))
    (page : PageData ℚ) (bucket : ActionBucket)
    (h : (results.filterMap (fun r => r.2)).length = 1) :
    ∃ res, fanOutConsensus threshold bucketWeights results page bucket = .ok res ∧
      res.strategy = .single ∧ res.confidence = 1 := by
  have hlen : (results.filterMap (fun r => r.2.map (fun b => (r.1, b)))).length = 1 :=
    (fulfilled_length results).trans h
  obtain ⟨p, hp⟩ := List.length_eq_one.mp hlen
  rw [fanOutConsensus]
  rw [hp]
  exact ⟨_, rfl, rfl, rfl⟩

/-- Claim C3: with two or more adapters queried, `generateConsensus`
raises an error iff every adapter's brief generation failed; when exactly
one adapter succeeds — and likewise when only one adapter was queried and
it succeeds — the outcome has strategy `single` and confidence exactly
`1`. -/
theorem C3_consensus_error_and_single (threshold : ℚ)
    (results : List (ModelId × Option ContentBrief))
    (page : PageData ℚ) (bucket : ActionBucket) (mw : ModelWeights) :
    (2 ≤ results.length →
      ((∃ e, generateConsensus threshold results page bucket mw = .error e) ↔
        ∀ r ∈ results, r.2 = none)) ∧
    (2 ≤ results.length →
      (results.filterMap (fun r => r.2)).length = 1 →
      ∃ res, generateConsensus threshold results page bucket mw = .ok res ∧
        res.strategy = .single ∧ res.confidence = 1) ∧
    (∀ (m : ModelId) (b : ContentBrief), results = [(m, some b)] →
      ∃ res, generateConsensus threshold results page bucket mw = .ok res ∧
        res.strategy = .single ∧ res.confidence = 1) := by
  refine ⟨?_, ?_, ?_⟩
  · intro hlen
    match results with
    | [] => exact absurd hlen (by simp)
    | [r] => exact absurd hlen (by simp)
    | r1 :: r2 :: rest =>
      exact fanOutConsensus_error_iff threshold (mwGet mw bucket) (r1 :: r2 :: rest) page bucket
  · intro hlen hone
    match results with
    | [] => exact absurd hlen (by simp)
    | [r] => exact absurd hlen (by simp)
    | r1 :: r2 :: rest =>
      exact fanOutConsensus_one_success threshold (mwGet mw bucket) (r1 :: r2 :: rest)
        page bucket hone
  · intro m b hres
    subst hres
    exact ⟨_, rfl, rfl, rfl⟩

/-- Witness for C3: three adapters, one success, under the default table —
the outcome degrades to `single` with confidence `1`. -/
theorem C3_consensus_error_and_single_witness :
    (2 ≤ ([(ModelId.claude, none), (ModelId.openai, some unreachableBrief),
        (ModelId.gemini, none)] : List (ModelId × Option ContentBrief)).length ∧
     (([(ModelId.claude, none), (ModelId.openai, some unreachableBrief),
        (ModelId.gemini, none)] : List (ModelId × Option ContentBrief)).filterMap
       (fun r => r.2)).length = 1) ∧
    (∃ res, generateConsensus (7/10) [(ModelId.claude, none),
        (ModelId.openai, some unreachableBrief), (ModelId.gemini, none)]
        (⟨none, "https://example.com/", "kw", 0, 0, 0, 0, 0, 0, 0, 0,
          .informational, false, [], 0, none, none⟩ : PageData ℚ)
        .CTR_FIX DEFAULT_MODEL_WEIGHTS = .ok res ∧
      res.strategy = .single ∧ res.confidence = 1) :=
  ⟨⟨by simp, by simp⟩,
    (C3_consensus_error_and_single (7/10) [(ModelId.claude, none),
        (ModelId.openai, some unreachableBrief), (ModelId.gemini, none)]
        (⟨none, "https://example.com/", "kw", 0, 0, 0, 0, 0, 0, 0, 0,
          .informational, false, [], 0, none, none⟩ : PageData ℚ)
        .CTR_FIX DEFAULT_MODEL_WEIGHTS).2.1 (by simp) (by simp)⟩

/-! ### Lemmas for claims C6 and C7 -/

theorem bump_mapped (cnt : String → ℕ) (r : String) :
    ∀ keys : List String, keys.Nodup → (r ∉ keys → cnt r = 0) →
      bump (keys.map (fun k => (k, cnt k))) r =
        (if r ∈ keys then keys else keys ++ [r]).map
          (fun k => (k, cnt k + if k = r then 1 else 0)) := by
  intro keys
  induction keys with
  | nil =>
    intro _ hz
    simp [bump, hz (List.not_mem_nil r)]
  | cons k0 ks ih =>
    intro hnd hz
    rw [List.map_cons, bump]
    by_cases hk : k0 = r
    · rw [if_pos hk, if_pos (hk ▸ List.mem_cons_self k0 ks), List.map_cons]
      have hk0 : k0 ∉ ks := (List.nodup_cons.mp hnd).1
      congr 1
      · rw [if_pos hk]
      · refine List.map_congr_left (fun k hkmem => ?_)
        have hknr : ¬ k = r := fun he => hk0 (by rw [hk, ← he]; exact hkmem)
        simp [hknr]
    · rw [if_neg hk]
      have hz' : r ∉ ks → cnt r = 0 := fun hr =>
        hz (fun hm => (List.mem_cons.mp hm).elim (fun he => hk he.symm) hr)
      rw [ih (List.nodup_cons.mp hnd).2 hz']
      have hcond : (r ∈ k0 :: ks) ↔ (r ∈ ks) := by
        rw [List.mem_cons]
        exact ⟨fun h => h.elim (fun he => absurd he.symm hk) id, Or.inr⟩
      by_cases hr : r ∈ ks
      · rw [if_pos hr, if_pos (hcond.mpr hr), List.map_cons]
        simp [hk]
      · rw [if_neg hr, if_neg (fun h => hr (hcond.mp h)), List.cons_append,
          List.map_cons]
        simp [hk]

theorem dedup_count_rep (rest : List String) :
    ∀ p : List String,
      rest.foldl bump ((dedupKeep p).map (fun k => (k, p.count k))) =
        (dedupKeep (p ++ rest)).map (fun k => (k, (p ++ rest).count k)) := by
  induction rest with
  | nil => intro p; simp
  | cons r rs ih =>
    intro p
    rw [List.foldl_cons]
    have hstep : bump ((dedupKeep p).map (fun k => (k, p.count k))) r =
        (dedupKeep (p ++ [r])).map (fun k => (k, (p ++ [r]).count k)) := by
      rw [bump_mapped (fun k => p.count k) r (dedupKeep p) (nodup_dedupKeep p)
        (fun hnm => List.count_eq_zero.mpr (fun hm => hnm ((mem_dedupKeep p r).mpr hm)))]
      rw [dedupKeep_append_singleton]
      have hfun : (fun k => (k, p.count k + if k = r then 1 else 0)) =
          (fun k => (k, (p ++ [r]).count k)) := by
        funext k
        rw [List.count_append]
        rw [List.count_cons, List.count_nil]
        by_cases hkr : k = r
        · rw [if_pos hkr, if_pos (by rw [hkr]; exact beq_self_eq_true r)]
        · rw [if_neg hkr, if_neg (by simp only [beq_iff_eq]; exact fun h => hkr h.symm)]
      rw [hfun]
      by_cases hr : r ∈ p
      · rw [if_pos ((mem_dedupKeep p r).mpr hr), if_pos hr]
      · rw [if_neg (fun h => hr ((mem_dedupKeep p r).mp h)), if_neg hr]
    rw [hstep, ih (p ++ [r])]
    rw [List.append_assoc]
    rfl

/-- The `h2Counts` map after the counting loop: keys in first-seen order,
values the total occurrence counts. -/
theorem counts_eval (lowers : List String) :
    lowers.foldl bump [] = (dedupKeep lowers).map (fun k => (k, lowers.count k)) := by
  have h := dedup_count_rep lowers []
  simpa [dedupKeep] using h

theorem insDesc_map {α β κ : Type} [LinearOrder κ] (key : β → κ) (f : α → β)
    (c : α) (l : List α) :
    insDesc key (f c) (l.map f) = (insDesc (fun a => key (f a)) c l).map f := by
  induction l with
  | nil => rfl
  | cons d ds ih =>
    rw [List.map_cons, insDesc, insDesc]
    by_cases h : key (f d) ≤ key (f c)
    · rw [if_pos h, if_pos h, List.map_cons, List.map_cons]
    · rw [if_neg h, if_neg h, List.map_cons, ih]

theorem insSortK_map {α β κ : Type} [LinearOrder κ] (key : β → κ) (f : α → β)
    (l : List α) :
    insSortK key (l.map f) = (insSortK (fun a => key (f a)) l).map f := by
  induction l with
  | nil => rfl
  | cons c cs ih => rw [List.map_cons, insSortK, insSortK, ih, insDesc_map]

theorem findSome_find_flatMap (briefs : List ContentBrief) (p : String → Bool) :
    briefs.findSome? (fun b => b.h2Additions.find? p) =
      (briefs.flatMap (fun b => b.h2Additions)).find? p := by
  induction briefs with
  | nil => rfl
  | cons b bs ih =>
    rw [List.flatMap_cons, List.find?_append, List.findSome?_cons, ← ih]
    cases b.h2Additions.find? p <;> rfl

/-- The briefs of a contribution list as the merge processes them: sorted
by live category weight (stable), failures dropped. -/
def orderedBriefs (bucketWeights : ModelRow) (contributions : List ModelContribution) :
    List ContentBrief :=
  (insSortK (contribKey bucketWeights)
    (contributions.filter (fun c => c.brief.isSome))).filterMap (fun c => c.brief)

/-- The heading merge as the specification words it: the deduplicated
case-insensitive union of the contributors' headings in first-seen order,
stably sorted by descending occurrence frequency, each heading cased as
its first occurrence. -/
def h2MergeSpec (briefs : List ContentBrief) : List String :=
  let all := briefs.flatMap (fun b => b.h2Additions)
  let lowers := all.map jsToLower
  let keys := dedupKeep lowers
  let ranked := insSortK (fun k => lowers.count k) keys
  ranked.map (fun k => (all.find? (fun h => jsToLower h == k)).getD k)

/-- The merge's H2 pipeline computes exactly the specification's merge. -/
theorem mergeH2_code_spec (briefs : List ContentBrief) :
    mergeH2With insSortK briefs = h2MergeSpec briefs := by
  rw [mergeH2With, h2MergeSpec]
  rw [counts_eval]
  rw [insSortK_map (fun p : String × ℕ => p.2) (fun k =>
    (k, ((briefs.flatMap (fun b => b.h2Additions)).map jsToLower).count k))]
  rw [List.map_map]
  refine List.map_congr_left (fun k _ => ?_)
  show firstCasing briefs k = _
  rw [firstCasing, findSome_find_flatMap]

theorem length_insDesc {α κ : Type} [LinearOrder κ] (key : α → κ) (c : α) (l : List α) :
    (insDesc key c l).length = l.length + 1 := by
  induction l with
  | nil => rfl
  | cons d ds ih =>
    rw [insDesc]
    by_cases h : key d ≤ key c
    · rw [if_pos h]; rfl
    · rw [if_neg h, List.length_cons, ih, List.length_cons]

theorem length_insSortK {α κ : Type} [LinearOrder κ] (key : α → κ) (l : List α) :
    (insSortK key l).length = l.length := by
  induction l with
  | nil => rfl
  | cons c cs ih => rw [insSortK, length_insDesc, ih, List.length_cons]

theorem mergeBriefsWith_some_of_ne_nil
    (sc : (ModelContribution → ℚ) → List ModelContribution → List ModelContribution)
    (sh : ((String × ℕ) → ℕ) → List (String × ℕ) → List (String × ℕ))
    (cs : List ModelContribution) (bw : ModelRow) (page : PageData ℚ)
    (bucket : ActionBucket)
    (h : (sc (contribKey bw) (cs.filter (fun c => c.brief.isSome))).filterMap
      (fun c => c.brief) ≠ []) :
    ∃ bb, mergeBriefsWith sc sh cs bw page bucket = some bb := by
  rw [mergeBriefsWith]
  cases hl : (sc (contribKey bw) (cs.filter (fun c => c.brief.isSome))).filterMap
      (fun c => c.brief) with
  | nil => exact absurd hl h
  | cons p rest => exact ⟨_, rfl⟩

theorem mem_insSortK {α κ : Type} [LinearOrder κ] (key : α → κ) (l : List α) (x : α) :
    x ∈ insSortK key l ↔ x ∈ l := by
  induction l with
  | nil => rfl
  | cons c cs ih => rw [insSortK, mem_insDesc, ih, List.mem_cons]

theorem filterMap_brief_length (l : List ModelContribution)
    (h : ∀ x ∈ l, x.brief.isSome) :
    (l.filterMap (fun c => c.brief)).length = l.length := by
  induction l with
  | nil => rfl
  | cons c cs ih =>
    obtain ⟨b, hb⟩ := Option.isSome_iff_exists.mp (h c (List.mem_cons_self c cs))
    rw [List.filterMap_cons, hb, List.length_cons, List.length_cons,
      ih (fun x hx => h x (List.mem_cons_of_mem c hx))]

/-- The heading list of any successful merge is the specification's
frequency-ranked, stably-tie-broken, casing-preserving union. -/
theorem mergeBriefs_h2 (cs : List ModelContribution) (bw : ModelRow)
    (page : PageData ℚ) (bucket : ActionBucket) (b : ContentBrief)
    (h : mergeBriefs cs bw page bucket = some b) :
    b.h2Additions = h2MergeSpec (orderedBriefs bw cs) := by
  rw [mergeBriefs, mergeBriefsWith] at h
  cases hl : (insSortK (contribKey bw) (cs.filter (fun c => c.brief.isSome))).filterMap
      (fun c => c.brief) with
  | nil =>
    rw [hl] at h
    exact Option.noConfusion h
  | cons primary rest =>
    rw [hl] at h
    rw [Option.some.injEq] at h
    have hh2 : b.h2Additions = mergeH2With insSortK (primary :: rest) := by
      rw [← h]
    rw [hh2, mergeH2_code_spec, orderedBriefs, hl]

/-- Claim C6: (i) every successful `mergeBriefs` produces the
specification's heading list — the deduplicated case-insensitive union in
weight-descending (stable) contributor order, ranked by descending
frequency with ties broken by first-seen order, each heading cased as its
first occurrence; (ii) whenever `generateConsensus` reaches consensus
(strategy `consensus`, i.e. confidence ≥ threshold), the returned brief's
headings are exactly that merge of its contribution list; (iii) the spec's
scenario — heading sets `{A,B}`, `{A,C}`, `{A,B,C}` at equal weights —
merges to `[A, B, C]` with first-seen casing. -/
theorem C6_headings_frequency_ranked :
    (∀ (cs : List ModelContribution) (bw : ModelRow) (page : PageData ℚ)
        (bucket : ActionBucket) (b : ContentBrief),
      mergeBriefs cs bw page bucket = some b →
      b.h2Additions = h2MergeSpec (orderedBriefs bw cs)) ∧
    (∀ (threshold : ℚ) (results : List (ModelId × Option ContentBrief))
        (page : PageData ℚ) (bucket : ActionBucket) (mw : ModelWeights)
        (res : ConsensusResult),
      generateConsensus threshold results page bucket mw = .ok res →
      res.strategy = .consensus →
      res.brief.h2Additions = h2MergeSpec (orderedBriefs (mwGet mw bucket) res.contributions)) ∧
    (h2MergeSpec
        [{ unreachableBrief with h2Additions := ["Alpha", "Beta"] },
         { unreachableBrief with h2Additions := ["ALPHA", "Gamma"] },
         { unreachableBrief with h2Additions := ["alpha", "BETA", "gamma"] }] =
      ["Alpha", "Beta", "Gamma"]) := by
  refine ⟨mergeBriefs_h2, ?_, by decide⟩
  intro threshold results page bucket mw res hok hstrat
  match results with
  | [] =>
    rw [show generateConsensus threshold [] page bucket mw =
      fanOutConsensus threshold (mwGet mw bucket) [] page bucket from rfl,
      fanOutConsensus] at hok
    exact Except.noConfusion hok
  | [(m, ob)] =>
    cases ob with
    | none => exact Except.noConfusion hok
    | some b0 =>
      simp only [generateConsensus] at hok
      rw [Except.ok.injEq] at hok
      rw [← hok] at hstrat
      simp at hstrat
  | r1 :: r2 :: rest =>
    rw [show generateConsensus threshold (r1 :: r2 :: rest) page bucket mw =
      fanOutConsensus threshold (mwGet mw bucket) (r1 :: r2 :: rest) page bucket from rfl,
      fanOutConsensus] at hok
    cases hF : (r1 :: r2 :: rest).filterMap (fun r => r.2.map (fun b => (r.1, b))) with
    | nil =>
      rw [hF] at hok
      exact Except.noConfusion hok
    | cons p ps =>
      rw [hF] at hok
      cases ps with
      | nil =>
        simp only [List.map_cons, List.map_nil] at hok
        rw [Except.ok.injEq] at hok
        rw [← hok] at hstrat
        simp at hstrat
      | cons p2 ps2 =>
        simp only [List.map_cons] at hok
        rw [Except.ok.injEq] at hok
        subst hok
        simp only [← List.map_cons] at hstrat ⊢
        have hfold : ((⟨p.1, (rGet (mwGet mw bucket) p.1).getD 0, hashBrief p.2,
              some p.2⟩ : ModelContribution) ::
            (⟨p2.1, (rGet (mwGet mw bucket) p2.1).getD 0, hashBrief p2.2,
              some p2.2⟩ : ModelContribution) ::
            ps2.map (fun q =>
              (⟨q.1, (rGet (mwGet mw bucket) q.1).getD 0, hashBrief q.2, some q.2⟩ :
                ModelContribution))) =
            (p :: p2 :: ps2).map (fun q =>
              (⟨q.1, (rGet (mwGet mw bucket) q.1).getD 0, hashBrief q.2, some q.2⟩ :
                ModelContribution)) := rfl
        simp only [hfold] at hstrat ⊢
        by_cases hc : calculateConfidence ((p :: p2 :: ps2).map (fun q =>
            (⟨q.1, (rGet (mwGet mw bucket) q.1).getD 0, hashBrief q.2, some q.2⟩ :
              ModelContribution))) ≥ threshold
        · simp only [if_pos hc] at hstrat ⊢
          -- the merge really returns a brief: every contribution has one
          have hsome : ∀ x ∈ insSortK (fun c : ModelContribution => c.weight)
              ((p :: p2 :: ps2).map (fun q =>
                (⟨q.1, (rGet (mwGet mw bucket) q.1).getD 0, hashBrief q.2, some q.2⟩ :
                  ModelContribution))), x.brief.isSome := by
            intro x hx
            have hx' := (mem_insSortK _ _ x).mp hx
            obtain ⟨q, _, hq⟩ := List.mem_map.mp hx'
            rw [← hq]
            rfl
          have hfe : ((insSortK (fun c : ModelContribution => c.weight)
              ((p :: p2 :: ps2).map (fun q =>
                (⟨q.1, (rGet (mwGet mw bucket) q.1).getD 0, hashBrief q.2, some q.2⟩ :
                  ModelContribution)))).filter (fun c => c.brief.isSome)) =
              insSortK (fun c : ModelContribution => c.weight)
              ((p :: p2 :: ps2).map (fun q =>
                (⟨q.1, (rGet (mwGet mw bucket) q.1).getD 0, hashBrief q.2, some q.2⟩ :
                  ModelContribution))) :=
            List.filter_eq_self.mpr hsome
          have hne : (insSortK (contribKey (mwGet mw bucket))
              ((insSortK (fun c : ModelContribution => c.weight)
                ((p :: p2 :: ps2).map (fun q =>
                  (⟨q.1, (rGet (mwGet mw bucket) q.1).getD 0, hashBrief q.2, some q.2⟩ :
                    ModelContribution)))).filter
                (fun c => c.brief.isSome))).filterMap (fun c => c.brief) ≠ [] := by
            intro hnil
            rw [hfe] at hnil
            have hlen := filterMap_brief_length (insSortK (contribKey (mwGet mw bucket))
              (insSortK (fun c : ModelContribution => c.weight)
                ((p :: p2 :: ps2).map (fun q =>
                  (⟨q.1, (rGet (mwGet mw bucket) q.1).getD 0, hashBrief q.2, some q.2⟩ :
                    ModelContribution)))))
              (fun x hx => hsome x ((mem_insSortK _ _ x).mp hx))
            rw [hnil] at hlen
            rw [length_insSortK, length_insSortK, List.length_map] at hlen
            simp at hlen
          obtain ⟨bb, hbb⟩ := mergeBriefsWith_some_of_ne_nil insSortK insSortK _ _ page bucket hne
          have hmb : mergeBriefs (insSortK (fun c : ModelContribution => c.weight)
              ((p :: p2 :: ps2).map (fun q =>
                (⟨q.1, (rGet (mwGet mw bucket) q.1).getD 0, hashBrief q.2, some q.2⟩ :
                  ModelContribution)))) (mwGet mw bucket) page bucket = some bb := hbb
          rw [hmb, Option.getD_some]
          exact mergeBriefs_h2 _ _ page bucket bb hmb
        · simp only [if_neg hc] at hstrat
          simp at hstrat

/-- The merged brief of the single-contribution instance used to witness C6. -/
def briefC6 : ContentBrief :=
  ⟨"https://example.com/", "kw", .CTR_FIX, [], "", "", 0, [], [], [], [], "", [],
   none, .draft, none, none, none⟩

/-- Witness for C6: one concrete contribution merges to `briefC6`, whose
heading list is the specification's frequency-ranked merge. -/
theorem C6_headings_frequency_ranked_witness :
    mergeBriefs [⟨ModelId.claude, 0, "", some unreachableBrief⟩] emptyRow
      (⟨none, "https://example.com/", "kw", 0, 0, 0, 0, 0, 0, 0, 0,
        .informational, false, [], 0, none, none⟩ : PageData ℚ) .CTR_FIX =
      some briefC6 ∧
    briefC6.h2Additions =
      h2MergeSpec (orderedBriefs emptyRow
        [⟨ModelId.claude, 0, "", some unreachableBrief⟩]) :=
  have hm : mergeBriefs [⟨ModelId.claude, 0, "", some unreachableBrief⟩] emptyRow
      (⟨none, "https://example.com/", "kw", 0, 0, 0, 0, 0, 0, 0, 0,
        .informational, false, [], 0, none, none⟩ : PageData ℚ) .CTR_FIX =
      some briefC6 := by
    rw [show mergeBriefs = mergeBriefsWith insSortK insSortK from rfl, mergeBriefsWith]
    norm_num [insSortK, insDesc, contribKey, emptyRow, rGet, mergeH2With,
      dedupKeep, unreachableBrief, briefC6, List.filterMap_cons, List.filterMap_nil]
  ⟨hm, C6_headings_frequency_ranked.1
    [⟨ModelId.claude, 0, "", some unreachableBrief⟩] emptyRow
    (⟨none, "https://example.com/", "kw", 0, 0, 0, 0, 0, 0, 0, 0,
      .informational, false, [], 0, none, none⟩ : PageData ℚ) .CTR_FIX briefC6 hm⟩

/-- Claim C7: the merge step is deterministic — (i) `mergeBriefs` is a pure
function of the contribution set, weight-row snapshot, page and bucket: two
runs on equal inputs return equal briefs in every field; and (ii) the result
does not depend on which conforming implementation the engine's two
`Array.prototype.sort` calls use: any two sorts meeting the ECMAScript
stable-sort contract produce the same merged brief on every input. -/
theorem C7_mergeBriefs_deterministic :
    (∀ (cs₁ cs₂ : List ModelContribution) (bw₁ bw₂ : ModelRow)
        (page₁ page₂ : PageData ℚ) (bucket₁ bucket₂ : ActionBucket),
      cs₁ = cs₂ → bw₁ = bw₂ → page₁ = page₂ → bucket₁ = bucket₂ →
      mergeBriefs cs₁ bw₁ page₁ bucket₁ = mergeBriefs cs₂ bw₂ page₂ bucket₂) ∧
    (∀ (sc₁ sc₂ : (ModelContribution → ℚ) → List ModelContribution →
          List ModelContribution)
        (sh₁ sh₂ : ((String × ℕ) → ℕ) → List (String × ℕ) → List (String × ℕ)),
      SortFnSpec sc₁ → SortFnSpec sc₂ → SortFnSpec sh₁ → SortFnSpec sh₂ →
      ∀ (cs : List ModelContribution) (bw : ModelRow) (page : PageData ℚ)
        (bucket : ActionBucket),
      mergeBriefsWith sc₁ sh₁ cs bw page bucket =
        mergeBriefsWith sc₂ sh₂ cs bw page bucket) := by
  constructor
  · intro cs₁ cs₂ bw₁ bw₂ page₁ page₂ bucket₁ bucket₂ hc hb hp hk
    subst hc; subst hb; subst hp; subst hk
    rfl
  · intro sc₁ sc₂ sh₁ sh₂ h₁ h₂ h₃ h₄ cs bw page bucket
    have hh : ∀ briefs : List ContentBrief,
        mergeH2With sh₁ briefs = mergeH2With sh₂ briefs := by
      intro briefs
      rw [mergeH2With, mergeH2With, sortFn_eq_of_spec h₃ h₄]
    rw [mergeBriefsWith, mergeBriefsWith, sortFn_eq_of_spec h₁ h₂]
    simp only [hh]

/-- Witness for C7: the insertion sort satisfies the stable-sort contract,
so two (identically implemented) runs at a concrete input agree. -/
theorem C7_mergeBriefs_deterministic_witness :
    mergeBriefsWith insSortK insSortK
        [⟨ModelId.openai, 0, "", some unreachableBrief⟩] emptyRow
        (⟨none, "https://example.com/a", "kw", 0, 0, 0, 0, 0, 0, 0, 0,
          .informational, false, [], 0, none, none⟩ : PageData ℚ) .CTR_FIX =
      mergeBriefsWith insSortK insSortK
        [⟨ModelId.openai, 0, "", some unreachableBrief⟩] emptyRow
        (⟨none, "https://example.com/a", "kw", 0, 0, 0, 0, 0, 0, 0, 0,
          .informational, false, [], 0, none, none⟩ : PageData ℚ) .CTR_FIX :=
  C7_mergeBriefs_deterministic.2 insSortK insSortK insSortK insSortK
    sortFnSpec_insSortK sortFnSpec_insSortK sortFnSpec_insSortK sortFnSpec_insSortK
    [⟨ModelId.openai, 0, "", some unreachableBrief⟩] emptyRow
    (⟨none, "https://example.com/a", "kw", 0, 0, 0, 0, 0, 0, 0, 0,
      .informational, false, [], 0, none, none⟩ : PageData ℚ) .CTR_FIX

end Cr0n
